import Mathlib

/-!
Verification of the grid-plot dispatcher of `ionyx/visualization/visualization.py`
(Python 2).  The data model is a shallow embedding of a pandas data frame:
an ordered list of named columns whose cells are strings, rational numbers,
or missing (NaN), plus an index column with an optional name.  The seaborn /
matplotlib rendering backend is an out-of-scope collaborator (spec section 1);
a rendered figure is modeled as the list of chart cells drawn on it, each cell
recording the chart primitive invoked, the data-frame column it draws, and the
subplot coordinates it targets.  Python exceptions are modeled with `Except`.
-/

deriving instance DecidableEq for Except

namespace Ionyx

/-- A single cell value of a data frame: a string, a number (rationals stand in
for Python floats/ints), or a missing value (NaN). -/
inductive Val where
  | str (s : String)
  | num (q : ℚ)
  | na
  deriving DecidableEq

/-- Python `type(v) is str`. -/
def Val.isStr : Val → Bool
  | .str _ => true
  | _ => false

/-- Whether a value is numeric. -/
def Val.isNum : Val → Bool
  | .num _ => true
  | _ => false

/-- A pandas-style data frame: named columns in order, an index column, and an
optional index name.  Row r of column c is `(cols[c]).2[r]`. -/
structure Frame where
  cols : List (String × List Val)
  index : List Val
  indexName : Option String
  deriving DecidableEq

/-- The per-cell effect of `fillna(0)`: missing values become the number 0,
all other values are unchanged. -/
def fillVal : Val → Val
  | .na => .num 0
  | v => v

/-- Lines 131 / 205, `data = data.fillna(0)`: replaces missing values with 0 in
every column, uniformly and regardless of column type; pandas returns a new
frame (the index is not part of the values and is not filled). -/
def fillna0 (d : Frame) : Frame :=
  { d with cols := d.cols.map (fun p => (p.1, p.2.map fillVal)) }

/-- Lines 142 / 221, `data.iloc[0, index]`: the first row of column `idx`;
raises IndexError when the column does not exist or has no row 0. -/
def firstVal (d : Frame) (idx : Nat) : Except String Val :=
  match d.cols[idx]? with
  | some p =>
    match p.2.head? with
    | some v => .ok v
    | none => .error "IndexError: single positional indexer is out-of-bounds"
  | none => .error "IndexError: single positional indexer is out-of-bounds"

/-- One grid cell of a figure: either left blank (no chart drawn), or a chart
primitive applied to data-frame column `colIdx` and drawn on the subplot at
coordinates `ax[row, col]`.  `count` is `sb.countplot` (line 143), `dist` is
`sb.distplot` (line 145), `line` is `Series.plot(kind="line")` (line 231). -/
inductive Cell where
  | blank
  | count (colIdx row col : Nat)
  | dist (colIdx row col : Nat)
  | line (colIdx row col : Nat)
  deriving DecidableEq

/-- Lines 118-128: the histogram/KDE flag pair selected by the `viz_type`
elif-chain; `none` means the `raise Exception` branch. -/
def vizFlags (v : String) : Option (Bool × Bool) :=
  if v == "hist" then some (true, false)
  else if v == "kde" then some (false, true)
  else if v == "both" then some (true, true)
  else none

/-- Lines 135 / 214: `n_plots = n_features / plot_size if n_features % plot_size == 0
else n_features / plot_size + 1` — Python 2 `/` on ints is floor division. -/
def nPlots (nFeat plotSize : Nat) : Nat :=
  if nFeat % plotSize = 0 then nFeat / plotSize else nFeat / plotSize + 1

/-- Sequencing of a fallible computation over a list, stopping at the first
raised exception (Python loop semantics). -/
def mapE {α β : Type} (f : α → Except String β) : List α → Except String (List β)
  | [] => .ok []
  | a :: l => do
    let b ← f a
    let bs ← mapE f l
    pure (b :: bs)

/-- Lines 139-146: the body of the plotting loop of
`visualize_feature_distributions` for cell `j` of figure `i`: compute
`index = i * plot_size + j`; when in bounds, dispatch on the type of the first
row value (`countplot` for strings, `distplot` otherwise) targeting
`ax[j / grid_size, j % grid_size]`; out-of-bounds cells are left blank. -/
def distCellAt (d : Frame) (nFeat gridSize i j : Nat) : Except String Cell :=
  let index := i * gridSize ^ 2 + j
  if index < nFeat then do
    let v ← firstVal d index
    if v.isStr then
      pure (Cell.count index (j / gridSize) (j % gridSize))
    else
      pure (Cell.dist index (j / gridSize) (j % gridSize))
  else
    pure Cell.blank

/-- Lines 97-147, `visualize_feature_distributions`: validate `viz_type`
(raising before anything else happens), zero-fill missing values, then render
`n_plots` grid figures of `grid_size ** 2` cells each.  The returned value is
the pair of histogram/KDE flags together with the cells of each figure; `bins`
and `fig_size` are only forwarded to the out-of-scope rendering backend and are
not modeled.  `grid_size = 0` makes `n_features % plot_size` raise
ZeroDivisionError in Python. -/
def visualize_feature_distributions (d : Frame) (vizType : String) (gridSize : Nat) :
    Except String (Bool × Bool × List (List Cell)) := do
  let flags ←
    match vizFlags vizType with
    | some fl => pure fl
    | none => Except.error "Visualization type not supported."
  let data := fillna0 d
  let nFeatures := data.cols.length
  if gridSize ^ 2 = 0 then
    Except.error "ZeroDivisionError: integer division or modulo by zero"
  else do
    let plotSize := gridSize ^ 2
    let batches ← mapE (fun i => mapE (fun j => distCellAt data nFeatures gridSize i j)
        (List.range plotSize)) (List.range (nPlots nFeatures plotSize))
    pure (flags.1, flags.2, batches)

/-- Arithmetic mean of a window. -/
def meanQ (l : List ℚ) : ℚ := l.sum / l.length

/-- Sample variance with ddof = 1 (the pandas default for `rolling_var`); the
rolling statistics other than the mean are out-of-scope pandas collaborators
(spec section 1) and no claim inspects their values. -/
def varQ (l : List ℚ) : ℚ :=
  ((l.map (fun x => (x - meanQ l) ^ 2)).sum) / ((l.length : ℚ) - 1)

/-- Rational stand-in for the rolling skewness statistic: the pandas statistic
divides by s cubed and is irrational in general; an out-of-scope collaborator
whose values no claim inspects. -/
def skewQ (l : List ℚ) : ℚ :=
  ((l.map (fun x => (x - meanQ l) ^ 3)).sum) / ((l.length : ℚ) * varQ l)

/-- Rational stand-in for the rolling kurtosis statistic (population excess
kurtosis; pandas applies a further bias correction); an out-of-scope
collaborator whose values no claim inspects. -/
def kurtQ (l : List ℚ) : ℚ :=
  ((l.map (fun x => (x - meanQ l) ^ 4)).sum) / ((l.length : ℚ) * (varQ l) ^ 2) - 3

/-- The pandas `pd.rolling_*(series, window)` family: position `k` of the
output holds the statistic of the trailing window ending at `k` once `window`
observations have been seen, and NaN for the first `window - 1` positions. -/
def rollingStat (stat : List ℚ → ℚ) (w : Nat) (xs : List ℚ) : List Val :=
  (List.range xs.length).map (fun k =>
    if k + 1 < w then Val.na else Val.num (stat ((xs.drop (k + 1 - w)).take w)))

/-- Line 223, `pd.rolling_mean`. -/
def rolling_mean (w : Nat) (xs : List ℚ) : List Val := rollingStat meanQ w xs

/-- Line 225, `pd.rolling_var`. -/
def rolling_var (w : Nat) (xs : List ℚ) : List Val := rollingStat varQ w xs

/-- Line 227, `pd.rolling_skew`. -/
def rolling_skew (w : Nat) (xs : List ℚ) : List Val := rollingStat skewQ w xs

/-- Line 229, `pd.rolling_kurt`. -/
def rolling_kurt (w : Nat) (xs : List ℚ) : List Val := rollingStat kurtQ w xs

/-- Numeric reading of a cell value; a rolling statistic applied to a column
holding non-numeric data raises (old pandas rejects object-dtype input). -/
def toNum : Val → Except String ℚ
  | .num q => .ok q
  | _ => .error "TypeError: cannot compute a rolling statistic over non-numeric values"

/-- Total counterpart of `toNum`, used only to state results about columns
that are known to be numeric. -/
def toNumD : Val → ℚ
  | .num q => q
  | _ => 0

/-- Column access `data.iloc[:, index]`. -/
def colVals (d : Frame) (idx : Nat) : Except String (List Val) :=
  match d.cols[idx]? with
  | some p => .ok p.2
  | none => .error "IndexError: single positional indexer is out-of-bounds"

/-- In-place column assignment `data.iloc[:, index] = vals` (keeps the column
name; other columns, the index and the index name are untouched). -/
def setColVals (d : Frame) (idx : Nat) (vals : List Val) : Frame :=
  { d with cols :=
      match d.cols[idx]? with
      | some p => d.cols.set idx (p.1, vals)
      | none => d.cols }

/-- Lines 222-229: the `smooth_method` elif-chain, replacing column `index` by
the selected rolling statistic of its values; any unrecognized method (and
`None`) matches no branch and leaves the frame untouched. -/
def seqSmooth (sm : Option String) (w : Nat) (d : Frame) (index : Nat) :
    Except String Frame :=
  if sm == some "mean" then do
    let vals ← colVals d index
    let xs ← mapE toNum vals
    pure (setColVals d index (rolling_mean w xs))
  else if sm == some "var" then do
    let vals ← colVals d index
    let xs ← mapE toNum vals
    pure (setColVals d index (rolling_var w xs))
  else if sm == some "skew" then do
    let vals ← colVals d index
    let xs ← mapE toNum vals
    pure (setColVals d index (rolling_skew w xs))
  else if sm == some "kurt" then do
    let vals ← colVals d index
    let xs ← mapE toNum vals
    pure (setColVals d index (rolling_kurt w xs))
  else pure d

/-- Lines 218-232: the body of the plotting loop of
`visualize_sequential_relationships` for cell `j` of figure `i`.  When
`index = i * plot_size + j` is in bounds and the first row value is *not* a
string, the column is optionally smoothed in place and drawn as a line chart at
`ax[j / grid_size, j % grid_size]`; string columns are skipped entirely (no
chart), as are out-of-bounds cells.  Returns the updated frame and the cell. -/
def seqStep (sm : Option String) (w nFeat gridSize : Nat) (d : Frame) (i j : Nat) :
    Except String (Frame × Cell) :=
  let index := i * gridSize ^ 2 + j
  if index < nFeat then do
    let v ← firstVal d index
    if v.isStr then pure (d, Cell.blank)
    else do
      let d2 ← seqSmooth sm w d index
      pure (d2, Cell.line index (j / gridSize) (j % gridSize))
  else pure (d, Cell.blank)

/-- The inner `for j in range(plot_size)` loop of lines 218-232, threading the
frame through the in-place smoothing writes and collecting the cells. -/
def seqCells (sm : Option String) (w nFeat gridSize i : Nat) :
    Frame → List Nat → Except String (Frame × List Cell)
  | d, [] => .ok (d, [])
  | d, j :: js => do
    let (d1, c) ← seqStep sm w nFeat gridSize d i j
    let (d2, cs) ← seqCells sm w nFeat gridSize i d1 js
    pure (d2, c :: cs)

/-- The outer `for i in range(n_plots)` loop of lines 216-233. -/
def seqBatches (sm : Option String) (w nFeat gridSize : Nat) :
    Frame → List Nat → Except String (Frame × List (List Cell))
  | d, [] => .ok (d, [])
  | d, i :: is => do
    let (d1, cs) ← seqCells sm w nFeat gridSize i d (List.range (gridSize ^ 2))
    let (d2, bs) ← seqBatches sm w nFeat gridSize d1 is
    pure (d2, cs :: bs)

/-- Line 208, `data.reset_index()`: the index becomes a new first column, named
after the index (or "index" when the index is unnamed), and the new index is
0..n-1; pandas raises when the chosen name is already a column. -/
def reset_index (d : Frame) : Except String Frame :=
  let nm := d.indexName.getD "index"
  if d.cols.any (fun p => p.1 == nm) then
    .error "ValueError: cannot insert, already exists"
  else
    .ok { cols := (nm, d.index) :: d.cols,
          index := (List.range d.index.length).map (fun k => Val.num k),
          indexName := none }

/-- Line 209, `data.set_index(time)`: re-keys the frame by column `time`, which
is removed from the columns; KeyError when absent. -/
def set_index (d : Frame) (t : String) : Except String Frame :=
  match d.cols.find? (fun p => p.1 == t) with
  | some p =>
      .ok { cols := d.cols.filter (fun q => q.1 != t),
            index := p.2, indexName := some t }
  | none => .error "KeyError"

/-- Line 211, `data.index.name = None` (mutates the current frame). -/
def setIndexNameNone (d : Frame) : Frame := { d with indexName := none }

/-- Lines 180-233, `visualize_sequential_relationships`: zero-fill missing
values (pandas returns a copy), re-key by the `time` column when it is not the
default "index" (the source compares with `is not`; CPython interns identical
short string literals, so this is modeled as string inequality), clear the
index name, then render the grid figures, smoothing quantitative columns in
place when a smoothing method is selected.  Returns the final local frame
together with the cells of each figure. -/
def visualize_sequential_relationships (d : Frame) (time : String)
    (smooth_method : Option String) (window gridSize : Nat) :
    Except String (Frame × List (List Cell)) := do
  let data := fillna0 d
  let data ←
    if time ≠ "index" then do
      let data1 ← reset_index data
      set_index data1 time
    else pure data
  let data := setIndexNameNone data
  let nFeatures := data.cols.length
  if gridSize ^ 2 = 0 then
    Except.error "ZeroDivisionError: integer division or modulo by zero"
  else
    seqBatches smooth_method window nFeatures gridSize data
      (List.range (nPlots nFeatures (gridSize ^ 2)))

/-- Total description of the cell rendered by `distCellAt`, meaningful for
frames whose columns all have a first row. -/
def distCellD (d : Frame) (nFeat gridSize i j : Nat) : Cell :=
  let index := i * gridSize ^ 2 + j
  if index < nFeat then
    match d.cols[index]? with
    | some p =>
      match p.2.head? with
      | some (Val.str _) => Cell.count index (j / gridSize) (j % gridSize)
      | _ => Cell.dist index (j / gridSize) (j % gridSize)
    | none => Cell.blank
  else Cell.blank

/-- Whether `smooth_method` selects one of the four rolling branches of the
elif-chain on lines 222-229. -/
def smoothes (sm : Option String) : Bool :=
  sm == some "mean" || sm == some "var" || sm == some "skew" || sm == some "kurt"

/-- Precondition on a column under which the sequential plotting loop cannot
raise: the column has a first row and, when a smoothing branch is selected and
the column is not string-typed, its values are all numeric. -/
def goodCol (sm : Option String) (p : String × List Val) : Bool :=
  match p.2.head? with
  | none => false
  | some v => !smoothes sm || v.isStr || p.2.all Val.isNum

/-- The net effect of the sequential plotting loop on the values of one
column: string-typed columns are untouched, otherwise the selected rolling
statistic (if any) replaces the values. -/
def procColVals (sm : Option String) (w : Nat) (vals : List Val) : List Val :=
  match vals.head? with
  | some (Val.str _) => vals
  | _ =>
    if sm == some "mean" then rolling_mean w (vals.map toNumD)
    else if sm == some "var" then rolling_var w (vals.map toNumD)
    else if sm == some "skew" then rolling_skew w (vals.map toNumD)
    else if sm == some "kurt" then rolling_kurt w (vals.map toNumD)
    else vals

/-- The net effect of the sequential plotting loop on one named column. -/
def procCol (sm : Option String) (w : Nat) (p : String × List Val) : String × List Val :=
  (p.1, procColVals sm w p.2)

/-- Total description of the cell rendered by the sequential loop for cell `j`
of figure `i`, in terms of the frame the loop started from. -/
def seqCellD (d : Frame) (nFeat gridSize i j : Nat) : Cell :=
  let index := i * gridSize ^ 2 + j
  if index < nFeat then
    match d.cols[index]? with
    | some p =>
      match p.2.head? with
      | some (Val.str _) => Cell.blank
      | _ => Cell.line index (j / gridSize) (j % gridSize)
    | none => Cell.blank
  else Cell.blank

/-- Loop invariant of the sequential plotting loop: once all column indices
below `m` have been visited, the frame agrees with the initial frame
`d0` on the index, the index name, and every unvisited column, while visited
columns hold their processed values. -/
def Inv (sm : Option String) (w : Nat) (d0 d : Frame) (m : Nat) : Prop :=
  d.index = d0.index ∧ d.indexName = d0.indexName ∧
  ∀ c : Nat, d.cols[c]? = if c < m then (d0.cols[c]?).map (procCol sm w) else d0.cols[c]?

theorem lt_of_getq {α : Type} {l : List α} {i : Nat} {a : α} (h : l[i]? = some a) :
    i < l.length := by
  by_contra hle
  simp [List.getElem?_eq_none (le_of_not_lt hle)] at h

theorem set_of_getq {α : Type} {l : List α} {i : Nat} {a : α} (h : l[i]? = some a) :
    l.set i a = l := by
  apply List.ext_getElem?_iff.mpr
  intro j
  by_cases hj : j = i
  · subst hj
    rw [List.getElem?_set_self (lt_of_getq h)]
    exact h.symm
  · rw [List.getElem?_set_ne (fun he => hj he.symm)]

theorem mapE_ok {α β : Type} (f : α → Except String β) (g : α → β)
    (l : List α) (h : ∀ a ∈ l, f a = .ok (g a)) : mapE f l = .ok (l.map g) := by
  induction l with
  | nil => rfl
  | cons a t ih =>
    have ha := h a (List.mem_cons_self a t)
    have ht := ih (fun x hx => h x (List.mem_cons_of_mem a hx))
    simp only [mapE, ha, ht, List.map]
    rfl

theorem nPlots_mul_ge (n p : Nat) (hp : 0 < p) : n ≤ nPlots n p * p := by
  have hdm : p * (n / p) + n % p = n := Nat.div_add_mod n p
  unfold nPlots
  by_cases h : n % p = 0
  · rw [if_pos h]
    rw [h, Nat.add_zero] at hdm
    rw [Nat.mul_comm]
    exact le_of_eq hdm.symm
  · rw [if_neg h]
    have hr : n % p < p := Nat.mod_lt _ hp
    calc n = p * (n / p) + n % p := hdm.symm
      _ ≤ p * (n / p) + p := Nat.add_le_add_left hr.le _
      _ = (n / p + 1) * p := by ring

theorem nPlots_eq_ceil (n p : Nat) (hp : 0 < p) :
    nPlots n p = Nat.ceil ((n : ℚ) / (p : ℚ)) := by
  have hpq : (0 : ℚ) < (p : ℚ) := by exact_mod_cast hp
  rcases Nat.eq_zero_or_pos n with hn | hn
  · subst hn
    simp [nPlots]
  · have hdm : p * (n / p) + n % p = n := Nat.div_add_mod n p
    have hNpos : 0 < nPlots n p := by
      unfold nPlots
      by_cases h : n % p = 0
      · rw [if_pos h]
        rw [h, Nat.add_zero] at hdm
        rcases Nat.eq_zero_or_pos (n / p) with hq | hq
        · rw [hq, Nat.mul_zero] at hdm
          omega
        · exact hq
      · rw [if_neg h]
        exact Nat.succ_pos _
    symm
    rw [Nat.ceil_eq_iff hNpos.ne.symm]
    constructor
    · rw [lt_div_iff₀ hpq]
      have : (nPlots n p - 1) * p < n := by
        unfold nPlots
        by_cases h : n % p = 0
        · rw [if_pos h]
          rw [h, Nat.add_zero] at hdm
          have hq : 0 < n / p := by
            rcases Nat.eq_zero_or_pos (n / p) with hq | hq
            · rw [hq, Nat.mul_zero] at hdm; omega
            · exact hq
          have : (n / p - 1) * p = n - p := by
            rw [Nat.sub_mul, Nat.one_mul, Nat.mul_comm p (n / p)] at *
            omega
          omega
        · rw [if_neg h]
          have : (n / p + 1 - 1) * p = n - n % p := by
            rw [Nat.add_sub_cancel, Nat.mul_comm]
            omega
          omega
      calc ((nPlots n p - 1 : Nat) : ℚ) * p = (((nPlots n p - 1) * p : Nat) : ℚ) := by
            push_cast
            ring
        _ < n := by exact_mod_cast this
    · rw [div_le_iff₀ hpq]
      calc (n : ℚ) ≤ ((nPlots n p * p : Nat) : ℚ) := by exact_mod_cast nPlots_mul_ge n p hp
        _ = (nPlots n p : ℚ) * p := by push_cast; ring

theorem distCellAt_ok (d : Frame) (gridSize i j : Nat)
    (hc : ∀ p ∈ d.cols, p.2 ≠ []) :
    distCellAt d d.cols.length gridSize i j =
      .ok (distCellD d d.cols.length gridSize i j) := by
  unfold distCellAt distCellD
  by_cases hb : i * gridSize ^ 2 + j < d.cols.length
  · rw [if_pos hb, if_pos hb]
    obtain ⟨p, hget⟩ : ∃ p, d.cols[i * gridSize ^ 2 + j]? = some p :=
      ⟨_, List.getElem?_eq_getElem hb⟩
    have hne := hc p (List.getElem?_mem hget)
    cases hv : p.2 with
    | nil => exact absurd hv hne
    | cons v t =>
      have hfv : firstVal d (i * gridSize ^ 2 + j) = .ok v := by
        unfold firstVal
        rw [hget]
        simp only [hv]
        rfl
      simp only [hfv, hget, hv]
      cases v with
      | str s => rfl
      | num q => rfl
      | na => rfl
  · rw [if_neg hb, if_neg hb]
    rfl

theorem firstVal_ok {d : Frame} {idx : Nat} {p : String × List Val} {v : Val}
    (hp : d.cols[idx]? = some p) (hv : p.2.head? = some v) : firstVal d idx = .ok v := by
  unfold firstVal
  rw [hp]
  simp only [hv]

theorem goodCol_head {sm : Option String} {p : String × List Val}
    (h : goodCol sm p = true) : ∃ v, p.2.head? = some v := by
  unfold goodCol at h
  cases hh : p.2.head? with
  | none => rw [hh] at h; exact absurd h (by simp)
  | some v => exact ⟨v, rfl⟩

theorem goodCol_num {sm : Option String} {p : String × List Val} {v : Val}
    (h : goodCol sm p = true) (hv : p.2.head? = some v)
    (hsm : smoothes sm = true) (hns : v.isStr = false) : p.2.all Val.isNum = true := by
  unfold goodCol at h
  rw [hv] at h
  simpa [hsm, hns] using h

theorem mapE_toNum (l : List Val) (h : l.all Val.isNum = true) :
    mapE toNum l = .ok (l.map toNumD) := by
  apply mapE_ok
  intro a ha
  have hnum := List.all_eq_true.mp h a ha
  cases a with
  | num q => rfl
  | str s => simp [Val.isNum] at hnum
  | na => simp [Val.isNum] at hnum

theorem setColVals_index (d : Frame) (i : Nat) (vals : List Val) :
    (setColVals d i vals).index = d.index := by
  unfold setColVals
  cases d.cols[i]? <;> rfl

theorem setColVals_indexName (d : Frame) (i : Nat) (vals : List Val) :
    (setColVals d i vals).indexName = d.indexName := by
  unfold setColVals
  cases d.cols[i]? <;> rfl

theorem setColVals_getq_self {d : Frame} {i : Nat} {p : String × List Val}
    (hp : d.cols[i]? = some p) (vals : List Val) :
    (setColVals d i vals).cols[i]? = some (p.1, vals) := by
  unfold setColVals
  simp only [hp]
  exact List.getElem?_set_self (lt_of_getq hp)

theorem setColVals_getq_ne {d : Frame} {i : Nat} (vals : List Val) {c : Nat} (hc : i ≠ c) :
    (setColVals d i vals).cols[c]? = d.cols[c]? := by
  unfold setColVals
  cases h : d.cols[i]? with
  | none => rfl
  | some p =>
    simp only []
    exact List.getElem?_set_ne hc

theorem seqSmooth_ok {sm : Option String} {w : Nat} {d : Frame} {i : Nat}
    {p : String × List Val} {v : Val}
    (hp : d.cols[i]? = some p) (hv : p.2.head? = some v) (hns : v.isStr = false)
    (hgood : goodCol sm p = true) :
    ∃ d2, seqSmooth sm w d i = .ok d2 ∧ d2.index = d.index ∧ d2.indexName = d.indexName ∧
      d2.cols[i]? = some (procCol sm w p) ∧ ∀ c : Nat, c ≠ i → d2.cols[c]? = d.cols[c]? := by
  have hproc : procColVals sm w p.2 =
      (if sm == some "mean" then rolling_mean w (p.2.map toNumD)
       else if sm == some "var" then rolling_var w (p.2.map toNumD)
       else if sm == some "skew" then rolling_skew w (p.2.map toNumD)
       else if sm == some "kurt" then rolling_kurt w (p.2.map toNumD)
       else p.2) := by
    unfold procColVals
    rw [hv]
    cases v with
    | str s => simp [Val.isStr] at hns
    | num q => rfl
    | na => rfl
  have hcv : colVals d i = .ok p.2 := by
    unfold colVals
    rw [hp]
  by_cases hsm : smoothes sm = true
  · have hnum := goodCol_num hgood hv hsm hns
    have hmap := mapE_toNum p.2 hnum
    refine ⟨setColVals d i (procColVals sm w p.2), ?_, setColVals_index d i _,
      setColVals_indexName d i _, ?_, fun c hc => setColVals_getq_ne _ (fun he => hc he.symm)⟩
    · unfold seqSmooth
      unfold smoothes at hsm
      by_cases h1 : sm == some "mean"
      · rw [if_pos h1, hcv]
        rw [hproc, if_pos h1]
        simp only [Bind.bind, Except.bind, hmap]
        rfl
      · by_cases h2 : sm == some "var"
        · rw [if_neg (by simp_all), if_pos h2, hcv]
          rw [hproc, if_neg (by simp_all), if_pos h2]
          simp only [Bind.bind, Except.bind, hmap]
          rfl
        · by_cases h3 : sm == some "skew"
          · rw [if_neg (by simp_all), if_neg (by simp_all), if_pos h3, hcv]
            rw [hproc, if_neg (by simp_all), if_neg (by simp_all), if_pos h3]
            simp only [Bind.bind, Except.bind, hmap]
            rfl
          · have h4 : sm == some "kurt" := by
              rcases Bool.or_eq_true_iff.mp hsm with h | h4
              · rcases Bool.or_eq_true_iff.mp h with h | h3'
                · rcases Bool.or_eq_true_iff.mp h with h1' | h2'
                  · exact absurd h1' (by simp_all)
                  · exact absurd h2' (by simp_all)
                · exact absurd h3' (by simp_all)
              · exact h4
            rw [if_neg (by simp_all), if_neg (by simp_all), if_neg (by simp_all), if_pos h4, hcv]
            rw [hproc, if_neg (by simp_all), if_neg (by simp_all), if_neg (by simp_all), if_pos h4]
            simp only [Bind.bind, Except.bind, hmap]
            rfl
    · rw [setColVals_getq_self hp]
      rfl
  · have hfalse : (sm == some "mean") = false ∧ (sm == some "var") = false ∧
        (sm == some "skew") = false ∧ (sm == some "kurt") = false := by
      unfold smoothes at hsm
      simp only [Bool.or_eq_true] at hsm
      push_neg at hsm
      refine ⟨?_, ?_, ?_, ?_⟩ <;> simp_all
    refine ⟨d, ?_, rfl, rfl, ?_, fun c _ => rfl⟩
    · unfold seqSmooth
      rw [if_neg (by simp [hfalse.1]), if_neg (by simp [hfalse.2.1]),
        if_neg (by simp [hfalse.2.2.1]), if_neg (by simp [hfalse.2.2.2])]
      rfl
    · rw [hp]
      unfold procCol
      rw [hproc, if_neg (by simp [hfalse.1]), if_neg (by simp [hfalse.2.1]),
        if_neg (by simp [hfalse.2.2.1]), if_neg (by simp [hfalse.2.2.2])]

theorem procCol_str {sm : Option String} {w : Nat} {p : String × List Val} {s : String}
    (hv : p.2.head? = some (Val.str s)) : procCol sm w p = p := by
  unfold procCol procColVals
  rw [hv]

theorem seqStep_spec (sm : Option String) (w gridSize : Nat) (d0 : Frame)
    (hgood : ∀ p ∈ d0.cols, goodCol sm p = true) (d : Frame) (i j : Nat)
    (hinv : Inv sm w d0 d (min d0.cols.length (i * gridSize ^ 2 + j))) :
    ∃ d2, seqStep sm w d0.cols.length gridSize d i j =
        .ok (d2, seqCellD d0 d0.cols.length gridSize i j) ∧
      Inv sm w d0 d2 (min d0.cols.length (i * gridSize ^ 2 + j + 1)) := by
  obtain ⟨hidx, hnm, hcols⟩ := hinv
  by_cases hb : i * gridSize ^ 2 + j < d0.cols.length
  · have hmin : min d0.cols.length (i * gridSize ^ 2 + j) = i * gridSize ^ 2 + j :=
      Nat.min_eq_right hb.le
    obtain ⟨p, hp0⟩ : ∃ p, d0.cols[i * gridSize ^ 2 + j]? = some p :=
      ⟨_, List.getElem?_eq_getElem hb⟩
    have hp : d.cols[i * gridSize ^ 2 + j]? = some p := by
      have hc := hcols (i * gridSize ^ 2 + j)
      rw [hmin, if_neg (lt_irrefl _)] at hc
      rw [hc, hp0]
    have hgoodp := hgood p (List.getElem?_mem hp0)
    obtain ⟨v, hv⟩ := goodCol_head hgoodp
    have hfv := firstVal_ok hp hv
    have hcell : seqCellD d0 d0.cols.length gridSize i j =
        (if v.isStr then Cell.blank
         else Cell.line (i * gridSize ^ 2 + j) (j / gridSize) (j % gridSize)) := by
      unfold seqCellD
      simp only [if_pos hb, hp0, hv]
      cases v with
      | str s => rfl
      | num q => rfl
      | na => rfl
    cases hstr : v.isStr with
    | true =>
      obtain ⟨s, hs⟩ : ∃ s, v = Val.str s := by
        cases v with
        | str s => exact ⟨s, rfl⟩
        | num q => simp [Val.isStr] at hstr
        | na => simp [Val.isStr] at hstr
      subst hs
      refine ⟨d, ?_, hidx, hnm, ?_⟩
      · unfold seqStep
        simp only [if_pos hb]
        rw [hfv, hcell]
        rfl
      · intro c
        by_cases hc : c = i * gridSize ^ 2 + j
        · subst hc
          rw [if_pos (by omega), hp, hp0]
          simp [procCol_str hv]
        · have hc2 := hcols c
          rw [hmin] at hc2
          rw [hc2]
          rcases Nat.lt_or_ge c (i * gridSize ^ 2 + j) with hlt | hge
          · rw [if_pos hlt, if_pos (by omega)]
          · rw [if_neg (by omega), if_neg (by omega)]
    | false =>
      obtain ⟨d2, hsm, hidx2, hnm2, hself, hne⟩ := seqSmooth_ok hp hv hstr hgoodp
      have hmain : seqStep sm w d0.cols.length gridSize d i j =
          .ok (d2, seqCellD d0 d0.cols.length gridSize i j) := by
        cases v with
        | str s => simp [Val.isStr] at hstr
        | num q =>
          unfold seqStep
          simp only [if_pos hb]
          rw [hfv, hcell, hsm]
          rfl
        | na =>
          unfold seqStep
          simp only [if_pos hb]
          rw [hfv, hcell, hsm]
          rfl
      refine ⟨d2, hmain, hidx2.trans hidx, hnm2.trans hnm, ?_⟩
      · intro c
        by_cases hc : c = i * gridSize ^ 2 + j
        · subst hc
          rw [if_pos (by omega), hself, hp0]
          rfl
        · have hc2 := hcols c
          rw [hmin] at hc2
          rw [hne c hc, hc2]
          rcases Nat.lt_or_ge c (i * gridSize ^ 2 + j) with hlt | hge
          · rw [if_pos hlt, if_pos (by omega)]
          · rw [if_neg (by omega), if_neg (by omega)]
  · have hmin : min d0.cols.length (i * gridSize ^ 2 + j) = d0.cols.length :=
      Nat.min_eq_left (le_of_not_lt hb)
    have hmin1 : min d0.cols.length (i * gridSize ^ 2 + j + 1) = d0.cols.length :=
      Nat.min_eq_left (by omega)
    refine ⟨d, ?_, hidx, hnm, ?_⟩
    · unfold seqStep seqCellD
      simp only [if_neg hb]
      rfl
    · intro c
      have hc2 := hcols c
      rw [hmin] at hc2
      rw [hmin1, hc2]

theorem seqCells_spec (sm : Option String) (w gridSize : Nat) (d0 : Frame)
    (hgood : ∀ p ∈ d0.cols, goodCol sm p = true) (i : Nat) :
    ∀ (k j0 : Nat) (d : Frame),
      Inv sm w d0 d (min d0.cols.length (i * gridSize ^ 2 + j0)) →
      ∃ d2, seqCells sm w d0.cols.length gridSize i d (List.range' j0 k) =
          .ok (d2, (List.range' j0 k).map
            (fun j => seqCellD d0 d0.cols.length gridSize i j)) ∧
        Inv sm w d0 d2 (min d0.cols.length (i * gridSize ^ 2 + j0 + k)) := by
  intro k
  induction k with
  | zero =>
    intro j0 d hinv
    exact ⟨d, rfl, by simpa using hinv⟩
  | succ n ih =>
    intro j0 d hinv
    obtain ⟨d1, hstep, hinv1⟩ := seqStep_spec sm w gridSize d0 hgood d i j0 hinv
    have hinv1a : Inv sm w d0 d1 (min d0.cols.length (i * gridSize ^ 2 + (j0 + 1))) := by
      have heq : i * gridSize ^ 2 + j0 + 1 = i * gridSize ^ 2 + (j0 + 1) := by omega
      rwa [heq] at hinv1
    obtain ⟨d2, hrest, hinv2⟩ := ih (j0 + 1) d1 hinv1a
    refine ⟨d2, ?_, ?_⟩
    · rw [List.range'_succ]
      unfold seqCells
      rw [hstep]
      simp only [Bind.bind, Except.bind]
      rw [hrest]
      rfl
    · have heq : i * gridSize ^ 2 + (j0 + 1) + n = i * gridSize ^ 2 + j0 + (n + 1) := by omega
      rwa [heq] at hinv2

theorem seqBatches_spec (sm : Option String) (w gridSize : Nat) (d0 : Frame)
    (hgood : ∀ p ∈ d0.cols, goodCol sm p = true) :
    ∀ (b i0 : Nat) (d : Frame),
      Inv sm w d0 d (min d0.cols.length (i0 * gridSize ^ 2)) →
      ∃ d2, seqBatches sm w d0.cols.length gridSize d (List.range' i0 b) =
          .ok (d2, (List.range' i0 b).map (fun i =>
            (List.range (gridSize ^ 2)).map
              (fun j => seqCellD d0 d0.cols.length gridSize i j))) ∧
        Inv sm w d0 d2 (min d0.cols.length ((i0 + b) * gridSize ^ 2)) := by
  intro b
  induction b with
  | zero =>
    intro i0 d hinv
    exact ⟨d, rfl, by simpa using hinv⟩
  | succ n ih =>
    intro i0 d hinv
    have hinv0 : Inv sm w d0 d (min d0.cols.length (i0 * gridSize ^ 2 + 0)) := by
      simpa using hinv
    obtain ⟨d1, hcells, hinv1⟩ :=
      seqCells_spec sm w gridSize d0 hgood i0 (gridSize ^ 2) 0 d hinv0
    have hinv1a : Inv sm w d0 d1 (min d0.cols.length ((i0 + 1) * gridSize ^ 2)) := by
      have heq : i0 * gridSize ^ 2 + 0 + gridSize ^ 2 = (i0 + 1) * gridSize ^ 2 := by ring
      rwa [heq] at hinv1
    obtain ⟨d2, hrest, hinv2⟩ := ih (i0 + 1) d1 hinv1a
    refine ⟨d2, ?_, ?_⟩
    · rw [List.range'_succ]
      unfold seqBatches
      rw [List.range_eq_range', hcells]
      simp only [Bind.bind, Except.bind]
      rw [hrest]
      simp only [List.range_eq_range', List.map]
      rfl
    · have heq : (i0 + 1 + n) * gridSize ^ 2 = (i0 + (n + 1)) * gridSize ^ 2 := by ring
      rwa [heq] at hinv2

theorem fillna0_cols_length (d : Frame) : (fillna0 d).cols.length = d.cols.length := by
  simp [fillna0]

theorem fillna0_cols_ne_nil (d : Frame) (hc : ∀ p ∈ d.cols, p.2 ≠ []) :
    ∀ p ∈ (fillna0 d).cols, p.2 ≠ [] := by
  intro p hp
  unfold fillna0 at hp
  simp only [List.mem_map] at hp
  obtain ⟨q, hq, rfl⟩ := hp
  intro hnil
  exact hc q hq (by simpa using hnil)

theorem vfd_eq (d : Frame) (v : String) (fl : Bool × Bool) (gridSize : Nat)
    (hv : vizFlags v = some fl) (hg : 0 < gridSize)
    (hc : ∀ p ∈ d.cols, p.2 ≠ []) :
    visualize_feature_distributions d v gridSize =
      .ok (fl.1, fl.2, (List.range (nPlots d.cols.length (gridSize ^ 2))).map (fun i =>
        (List.range (gridSize ^ 2)).map (fun j =>
          distCellD (fillna0 d) d.cols.length gridSize i j))) := by
  have hc' := fillna0_cols_ne_nil d hc
  have hlen := fillna0_cols_length d
  have hps : ¬ gridSize ^ 2 = 0 := by positivity
  have hbatch : mapE (fun i => mapE
        (fun j => distCellAt (fillna0 d) (fillna0 d).cols.length gridSize i j)
        (List.range (gridSize ^ 2)))
      (List.range (nPlots (fillna0 d).cols.length (gridSize ^ 2))) =
      .ok ((List.range (nPlots (fillna0 d).cols.length (gridSize ^ 2))).map (fun i =>
        (List.range (gridSize ^ 2)).map (fun j =>
          distCellD (fillna0 d) (fillna0 d).cols.length gridSize i j))) := by
    apply mapE_ok
    intro i _
    apply mapE_ok
    intro j _
    exact distCellAt_ok (fillna0 d) gridSize i j hc'
  conv_rhs => rw [← hlen]
  unfold visualize_feature_distributions
  rw [hv]
  simp only [Bind.bind, Except.bind, if_neg hps]
  rw [hbatch]
  rfl

theorem vsr_index_eq (d : Frame) (sm : Option String) (w gridSize : Nat)
    (hg : 0 < gridSize)
    (hgood : ∀ p ∈ (fillna0 d).cols, goodCol sm p = true) :
    visualize_sequential_relationships d "index" sm w gridSize =
      .ok (⟨(fillna0 d).cols.map (procCol sm w), d.index, none⟩,
        (List.range (nPlots d.cols.length (gridSize ^ 2))).map (fun i =>
          (List.range (gridSize ^ 2)).map (fun j =>
            seqCellD (fillna0 d) d.cols.length gridSize i j))) := by
  have hlen := fillna0_cols_length d
  have hps : ¬ gridSize ^ 2 = 0 := by positivity
  have hinv0 : Inv sm w (setIndexNameNone (fillna0 d)) (setIndexNameNone (fillna0 d))
      (min (setIndexNameNone (fillna0 d)).cols.length (0 * gridSize ^ 2)) :=
    ⟨rfl, rfl, fun c => by rw [if_neg (by omega)]⟩
  obtain ⟨d2, hb, hinv⟩ := seqBatches_spec sm w gridSize (setIndexNameNone (fillna0 d)) hgood
    (nPlots (setIndexNameNone (fillna0 d)).cols.length (gridSize ^ 2)) 0
    (setIndexNameNone (fillna0 d)) hinv0
  have hmge := nPlots_mul_ge (setIndexNameNone (fillna0 d)).cols.length (gridSize ^ 2)
    (by positivity)
  have hminfin : min (setIndexNameNone (fillna0 d)).cols.length
      ((0 + nPlots (setIndexNameNone (fillna0 d)).cols.length (gridSize ^ 2)) * gridSize ^ 2) =
      (setIndexNameNone (fillna0 d)).cols.length := by
    rw [Nat.zero_add]
    exact Nat.min_eq_left hmge
  obtain ⟨hd2i, hd2n, hd2c⟩ := hinv
  have hcols2 : d2.cols = (setIndexNameNone (fillna0 d)).cols.map (procCol sm w) := by
    apply List.ext_getElem?_iff.mpr
    intro c
    have hc := hd2c c
    rw [hminfin] at hc
    rw [List.getElem?_map]
    by_cases hcn : c < (setIndexNameNone (fillna0 d)).cols.length
    · rw [if_pos hcn] at hc
      exact hc
    · rw [if_neg hcn] at hc
      rw [hc, List.getElem?_eq_none (le_of_not_lt hcn)]
      rfl
  have hd2 : d2 = ⟨(fillna0 d).cols.map (procCol sm w), d.index, none⟩ := by
    cases d2 with
    | mk dc di dn =>
      simp only [Frame.mk.injEq]
      exact ⟨hcols2, hd2i, hd2n⟩
  have hlen2 : (setIndexNameNone (fillna0 d)).cols.length = d.cols.length := hlen
  unfold visualize_sequential_relationships
  simp only [ne_eq, not_true_eq_false, if_false, Bind.bind, Except.bind, Pure.pure,
    Except.pure, if_neg hps]
  simp only [List.range_eq_range']
  rw [hb, hd2, hlen2]
  simp only [List.range_eq_range']
  rfl

theorem goodCol_of_ne_nil {sm : Option String} (hsm : smoothes sm = false)
    {p : String × List Val} (hne : p.2 ≠ []) : goodCol sm p = true := by
  unfold goodCol
  cases hp : p.2 with
  | nil => exact absurd hp hne
  | cons a t =>
    simp [hsm]

theorem nPlots_cast_ceil (n gridSize : Nat) (hg : 0 < gridSize) :
    nPlots n (gridSize ^ 2) = Nat.ceil ((n : ℚ) / ((gridSize : ℚ) ^ 2)) := by
  rw [nPlots_eq_ceil _ _ (by positivity)]
  norm_num

/-- C1: for every dataset with n columns and every positive grid size g, both
`visualize_feature_distributions` and `visualize_sequential_relationships`
produce exactly ceil(n / g^2) grid figures; in particular a dataset with 0
columns produces 0 figures and raises no error.  Hypotheses: the grid size is
positive (the ceiling formula is undefined at g = 0, where Python raises
ZeroDivisionError), the viz_type is one of the recognized modes, and every
column has a first row (so the first-row type dispatch itself cannot raise;
a 0-column dataset satisfies this vacuously). -/
theorem c1_batch_count (d : Frame) (v : String) (fl : Bool × Bool) (w gridSize : Nat)
    (hg : 0 < gridSize) (hv : vizFlags v = some fl)
    (hc : ∀ p ∈ d.cols, p.2 ≠ []) :
    (∃ bs, visualize_feature_distributions d v gridSize = .ok (fl.1, fl.2, bs) ∧
       bs.length = Nat.ceil ((d.cols.length : ℚ) / ((gridSize : ℚ) ^ 2))) ∧
    (∃ dF bs, visualize_sequential_relationships d "index" none w gridSize = .ok (dF, bs) ∧
       bs.length = Nat.ceil ((d.cols.length : ℚ) / ((gridSize : ℚ) ^ 2))) ∧
    (d.cols = [] → visualize_feature_distributions d v gridSize = .ok (fl.1, fl.2, []) ∧
       ∃ dF, visualize_sequential_relationships d "index" none w gridSize = .ok (dF, [])) := by
  have hgood : ∀ p ∈ (fillna0 d).cols, goodCol none p = true := fun p hp =>
    goodCol_of_ne_nil (by rfl) (fillna0_cols_ne_nil d hc p hp)
  have hvfd := vfd_eq d v fl gridSize hv hg hc
  have hvsr := vsr_index_eq d none w gridSize hg hgood
  have hceil := nPlots_cast_ceil d.cols.length gridSize hg
  refine ⟨⟨_, hvfd, ?_⟩, ⟨_, _, hvsr, ?_⟩, ?_⟩
  · simp [hceil]
  · simp [hceil]
  · intro h0
    have hn : d.cols.length = 0 := by rw [h0]; rfl
    refine ⟨?_, ⟨⟨(fillna0 d).cols.map (procCol none w), d.index, none⟩, hvsr.trans ?_⟩⟩
    · rw [hvfd]
      simp [hn, nPlots]
    · simp [hn, nPlots]

/-- Witness dataset for C1 and C3: 17 quantitative (numeric) one-row columns. -/
def frame17 : Frame :=
  ⟨(List.range 17).map (fun k => ("c" ++ toString k, [Val.num 1])), [Val.num 0], none⟩

/-- Witness for C1: the hypotheses hold at `frame17` with grid size 4, and the
theorem yields exactly ceil(17 / 16) = 2 figures for the distribution variant. -/
theorem c1_batch_count_witness :
    ((0 < 4 ∧ vizFlags "hist" = some (true, false)) ∧ ∀ p ∈ frame17.cols, p.2 ≠ []) ∧
    (∃ bs, visualize_feature_distributions frame17 "hist" 4 = .ok (true, false, bs) ∧
       bs.length = Nat.ceil ((frame17.cols.length : ℚ) / ((4 : ℚ) ^ 2))) := by
  have h := c1_batch_count frame17 "hist" (true, false) 1 4 (by norm_num) (by rfl)
    (by decide)
  exact ⟨⟨⟨by norm_num, rfl⟩, by decide⟩, h.1⟩

/-- C5: `visualize_feature_distributions` raises for every viz_type other than
"hist", "kde" and "both" — the check is the first statement, so the raise
happens before any figure is produced and the error return carries no figures
— and for the three recognized values it does not raise on mode selection and
sets the histogram/KDE flag pair to (true, false), (false, true) and
(true, true) respectively. -/
theorem c5_viz_type_dispatch (d : Frame) (gridSize : Nat)
    (hg : 0 < gridSize) (hc : ∀ p ∈ d.cols, p.2 ≠ []) :
    (∀ v : String, v ≠ "hist" → v ≠ "kde" → v ≠ "both" →
       visualize_feature_distributions d v gridSize =
         .error "Visualization type not supported.") ∧
    (∃ bs, visualize_feature_distributions d "hist" gridSize = .ok (true, false, bs)) ∧
    (∃ bs, visualize_feature_distributions d "kde" gridSize = .ok (false, true, bs)) ∧
    (∃ bs, visualize_feature_distributions d "both" gridSize = .ok (true, true, bs)) := by
  refine ⟨?_, ⟨_, vfd_eq d "hist" (true, false) gridSize (by rfl) hg hc⟩,
    ⟨_, vfd_eq d "kde" (false, true) gridSize (by rfl) hg hc⟩,
    ⟨_, vfd_eq d "both" (true, true) gridSize (by rfl) hg hc⟩⟩
  intro v h1 h2 h3
  have hfl : vizFlags v = none := by
    unfold vizFlags
    rw [if_neg (by simpa using h1), if_neg (by simpa using h2), if_neg (by simpa using h3)]
  unfold visualize_feature_distributions
  rw [hfl]
  rfl

/-- Witness for C5: at a concrete dataset, the unrecognized mode "xyz" raises
and the mode "hist" selects the flags (true, false). -/
theorem c5_viz_type_dispatch_witness :
    ((0 < 4 ∧ ∀ p ∈ frame17.cols, p.2 ≠ []) ∧
     visualize_feature_distributions frame17 "xyz" 4 =
       .error "Visualization type not supported.") ∧
    (∃ bs, visualize_feature_distributions frame17 "hist" 4 = .ok (true, false, bs)) := by
  have h := c5_viz_type_dispatch frame17 4 (by norm_num) (by decide)
  exact ⟨⟨⟨by norm_num, by decide⟩, h.1 "xyz" (by decide) (by decide) (by decide)⟩, h.2.1⟩

theorem getD_map_range {α : Type} (f : Nat → α) (n i : Nat) (dft : α) (h : i < n) :
    ((List.range n).map f).getD i dft = f i := by
  rw [List.getD_eq_getElem?_getD, List.getElem?_map, List.getElem?_range h]
  rfl

/-- C3: in both variants, the cell at position j (0 ≤ j < g²) of batch i draws
data-frame column number i*g² + j at subplot coordinates (j / g, j % g) in
row-major order — so column order is preserved across batches — and cells
whose column index is out of bounds are left blank.  Concretely, 17
quantitative columns with grid size 4 yield exactly 2 figures, the second of
which has 1 filled cell and 15 blank ones. -/
theorem c3_cell_assignment (d : Frame) (v : String) (fl : Bool × Bool)
    (sm : Option String) (w gridSize : Nat) (hg : 0 < gridSize)
    (hv : vizFlags v = some fl) (hc : ∀ p ∈ d.cols, p.2 ≠ [])
    (hgood : ∀ p ∈ (fillna0 d).cols, goodCol sm p = true) :
    (∃ bs, visualize_feature_distributions d v gridSize = .ok (fl.1, fl.2, bs) ∧
      ∀ i j, i < bs.length → j < gridSize ^ 2 →
        (d.cols.length ≤ i * gridSize ^ 2 + j →
          (bs.getD i []).getD j Cell.blank = Cell.blank) ∧
        (i * gridSize ^ 2 + j < d.cols.length →
          (bs.getD i []).getD j Cell.blank =
              Cell.count (i * gridSize ^ 2 + j) (j / gridSize) (j % gridSize) ∨
          (bs.getD i []).getD j Cell.blank =
              Cell.dist (i * gridSize ^ 2 + j) (j / gridSize) (j % gridSize))) ∧
    (∃ dF bs, visualize_sequential_relationships d "index" sm w gridSize = .ok (dF, bs) ∧
      ∀ i j, i < bs.length → j < gridSize ^ 2 →
        (d.cols.length ≤ i * gridSize ^ 2 + j →
          (bs.getD i []).getD j Cell.blank = Cell.blank) ∧
        (i * gridSize ^ 2 + j < d.cols.length →
          (bs.getD i []).getD j Cell.blank = Cell.blank ∨
          (bs.getD i []).getD j Cell.blank =
              Cell.line (i * gridSize ^ 2 + j) (j / gridSize) (j % gridSize))) ∧
    (Except.map (fun o => o.2.2.length)
        (visualize_feature_distributions frame17 "hist" 4) = .ok 2 ∧
     Except.map (fun o => ((o.2.2.getD 1 []).filter (fun c => c != Cell.blank)).length)
        (visualize_feature_distributions frame17 "hist" 4) = .ok 1 ∧
     Except.map (fun o => ((o.2.2.getD 1 []).filter (fun c => c == Cell.blank)).length)
        (visualize_feature_distributions frame17 "hist" 4) = .ok 15) := by
  have hlen := fillna0_cols_length d
  refine ⟨⟨_, vfd_eq d v fl gridSize hv hg hc, ?_⟩,
    ⟨_, _, vsr_index_eq d sm w gridSize hg hgood, ?_⟩, by rfl, by rfl, by rfl⟩
  · intro i j hi hj
    have hi2 : i < nPlots d.cols.length (gridSize ^ 2) := by simpa using hi
    rw [getD_map_range _ _ _ _ hi2, getD_map_range _ _ _ _ hj]
    constructor
    · intro hge
      unfold distCellD
      rw [if_neg (by omega)]
    · intro hlt
      unfold distCellD
      rw [if_pos hlt]
      obtain ⟨p, hp⟩ : ∃ p, (fillna0 d).cols[i * gridSize ^ 2 + j]? = some p :=
        ⟨_, List.getElem?_eq_getElem (by omega)⟩
      rw [hp]
      cases hh : p.2.head? with
      | none => right; simp only [hh]
      | some u =>
        cases u with
        | str s => left; simp only [hh]
        | num q => right; simp only [hh]
        | na => right; simp only [hh]
  · intro i j hi hj
    have hi2 : i < nPlots d.cols.length (gridSize ^ 2) := by simpa using hi
    rw [getD_map_range _ _ _ _ hi2, getD_map_range _ _ _ _ hj]
    constructor
    · intro hge
      unfold seqCellD
      rw [if_neg (by omega)]
    · intro hlt
      unfold seqCellD
      rw [if_pos hlt]
      cases hp : (fillna0 d).cols[i * gridSize ^ 2 + j]? with
      | none => left; rfl
      | some p =>
        cases hh : p.2.head? with
        | none => right; simp only [hh]
        | some u =>
          cases u with
          | str s => left; simp only [hh]
          | num q => right; simp only [hh]
          | na => right; simp only [hh]

/-- Witness for C3: the hypotheses hold at `frame17` (17 numeric columns) with
grid size 4, mode "hist" and no smoothing, and the instantiated theorem yields
the 2-figure / 1-filled / 15-blank scenario. -/
theorem c3_cell_assignment_witness :
    (((0 < 4 ∧ vizFlags "hist" = some (true, false)) ∧
      (∀ p ∈ frame17.cols, p.2 ≠ [])) ∧
     (∀ p ∈ (fillna0 frame17).cols, goodCol none p = true)) ∧
    (Except.map (fun o => o.2.2.length)
        (visualize_feature_distributions frame17 "hist" 4) = .ok 2 ∧
     Except.map (fun o => ((o.2.2.getD 1 []).filter (fun c => c != Cell.blank)).length)
        (visualize_feature_distributions frame17 "hist" 4) = .ok 1 ∧
     Except.map (fun o => ((o.2.2.getD 1 []).filter (fun c => c == Cell.blank)).length)
        (visualize_feature_distributions frame17 "hist" 4) = .ok 15) := by
  have h := c3_cell_assignment frame17 "hist" (true, false) none 1 4 (by norm_num)
    (by rfl) (by decide) (by decide)
  exact ⟨⟨⟨⟨by norm_num, by rfl⟩, by decide⟩, by decide⟩, h.2.2⟩

/-- Counterexample dataset for C2: a single column whose first value is the
string "x" (a later row is numeric, so the column is mixed-typed). -/
def dStrSeq : Frame :=
  ⟨[("a", [Val.str "x", Val.num 1])], [Val.num 0, Val.num 1], none⟩

/-- Counterexample to C2 as stated: in the sequential variant
(`visualize_sequential_relationships`), a column whose first value is a string
is NOT routed to the categorical count-chart path — it is skipped entirely and
its cell stays blank (there is no `else` branch for strings on lines 221-232),
whereas the claim asserts a count chart in both variants. -/
theorem c2_counterexample :
    Except.map (fun p => p.2)
        (visualize_sequential_relationships dStrSeq "index" none 1 1) =
      .ok [[Cell.blank]] := by rfl

/-- C2, amended: in both variants the dispatcher classifies an in-bounds
column solely by the type of its first row value (the hypotheses below mention
nothing but the first value, so later rows are irrelevant).  In the
distribution variant a string first value routes the column to the categorical
count-chart path and any other first value to the quantitative distplot path;
in the sequential variant a non-string first value routes the column to the
quantitative line-chart path while a string first value causes the column to
be skipped (blank cell, no chart) rather than count-charted. -/
theorem c2_first_row_routing (d : Frame) (v : String) (fl : Bool × Bool)
    (sm : Option String) (w gridSize : Nat) (hg : 0 < gridSize)
    (hv : vizFlags v = some fl) (hc : ∀ p ∈ d.cols, p.2 ≠ [])
    (hgood : ∀ p ∈ (fillna0 d).cols, goodCol sm p = true) :
    ∃ bs1 dF bs2,
      visualize_feature_distributions d v gridSize = .ok (fl.1, fl.2, bs1) ∧
      visualize_sequential_relationships d "index" sm w gridSize = .ok (dF, bs2) ∧
      ∀ i j vfst, j < gridSize ^ 2 →
        firstVal (fillna0 d) (i * gridSize ^ 2 + j) = .ok vfst →
        ((∀ s, vfst = Val.str s →
            (bs1.getD i []).getD j Cell.blank =
              Cell.count (i * gridSize ^ 2 + j) (j / gridSize) (j % gridSize) ∧
            (bs2.getD i []).getD j Cell.blank = Cell.blank) ∧
         (vfst.isStr = false →
            (bs1.getD i []).getD j Cell.blank =
              Cell.dist (i * gridSize ^ 2 + j) (j / gridSize) (j % gridSize) ∧
            (bs2.getD i []).getD j Cell.blank =
              Cell.line (i * gridSize ^ 2 + j) (j / gridSize) (j % gridSize))) := by
  have hlen := fillna0_cols_length d
  refine ⟨_, _, _, vfd_eq d v fl gridSize hv hg hc,
    vsr_index_eq d sm w gridSize hg hgood, ?_⟩
  intro i j vfst hj hfv
  obtain ⟨p, hp, hh⟩ : ∃ p, (fillna0 d).cols[i * gridSize ^ 2 + j]? = some p ∧
      p.2.head? = some vfst := by
    unfold firstVal at hfv
    cases hq : (fillna0 d).cols[i * gridSize ^ 2 + j]? with
    | none => rw [hq] at hfv; exact absurd hfv (by simp)
    | some p =>
      rw [hq] at hfv
      cases hh : p.2.head? with
      | none => simp only [hh] at hfv; exact absurd hfv (by simp)
      | some u =>
        simp only [hh, Except.ok.injEq] at hfv
        exact ⟨p, rfl, by rw [hh, hfv]⟩
  have hbound : i * gridSize ^ 2 + j < d.cols.length := hlen ▸ lt_of_getq hp
  have hiN : i < nPlots d.cols.length (gridSize ^ 2) := by
    by_contra hge
    have h1 : nPlots d.cols.length (gridSize ^ 2) * gridSize ^ 2 ≤ i * gridSize ^ 2 :=
      Nat.mul_le_mul_right _ (le_of_not_lt hge)
    have h2 := nPlots_mul_ge d.cols.length (gridSize ^ 2) (by positivity)
    omega
  rw [getD_map_range _ _ _ _ hiN, getD_map_range _ _ _ _ hj,
    getD_map_range _ _ _ _ hiN, getD_map_range _ _ _ _ hj]
  constructor
  · intro s hs
    subst hs
    constructor
    · unfold distCellD
      rw [if_pos hbound, hp]
      simp only [hh]
    · unfold seqCellD
      rw [if_pos hbound, hp]
      simp only [hh]
  · intro hns
    constructor
    · unfold distCellD
      rw [if_pos hbound, hp]
      cases vfst with
      | str s => simp [Val.isStr] at hns
      | num q => simp only [hh]
      | na => simp only [hh]
    · unfold seqCellD
      rw [if_pos hbound, hp]
      cases vfst with
      | str s => simp [Val.isStr] at hns
      | num q => simp only [hh]
      | na => simp only [hh]

/-- Witness for the amended C2: a dataset with one string-first (mixed-type)
column and one numeric column, grid size 1, no smoothing; the theorem applies
and classification keys on the first row only. -/
def dMixed : Frame :=
  ⟨[("s", [Val.str "x", Val.num 7]), ("a", [Val.num 1, Val.str "y"])],
   [Val.num 0, Val.num 1], none⟩

theorem c2_first_row_routing_witness :
    (((0 < 1 ∧ vizFlags "hist" = some (true, false)) ∧
      (∀ p ∈ dMixed.cols, p.2 ≠ [])) ∧
     (∀ p ∈ (fillna0 dMixed).cols, goodCol none p = true)) ∧
    (∃ bs1 dF bs2,
      visualize_feature_distributions dMixed "hist" 1 = .ok (true, false, bs1) ∧
      visualize_sequential_relationships dMixed "index" none 1 1 = .ok (dF, bs2) ∧
      ∀ i j vfst, j < 1 ^ 2 →
        firstVal (fillna0 dMixed) (i * 1 ^ 2 + j) = .ok vfst →
        ((∀ s, vfst = Val.str s →
            (bs1.getD i []).getD j Cell.blank =
              Cell.count (i * 1 ^ 2 + j) (j / 1) (j % 1) ∧
            (bs2.getD i []).getD j Cell.blank = Cell.blank) ∧
         (vfst.isStr = false →
            (bs1.getD i []).getD j Cell.blank =
              Cell.dist (i * 1 ^ 2 + j) (j / 1) (j % 1) ∧
            (bs2.getD i []).getD j Cell.blank =
              Cell.line (i * 1 ^ 2 + j) (j / 1) (j % 1)))) := by
  refine ⟨⟨⟨⟨by norm_num, by rfl⟩, by decide⟩, by decide⟩, ?_⟩
  exact c2_first_row_routing dMixed "hist" (true, false) none 1 1 (by norm_num)
    (by rfl) (by decide) (by decide)

theorem distCellD_at (d0 : Frame) (nFeat g c : Nat) {p : String × List Val} {u : Val}
    (hb : c < nFeat) (hp : d0.cols[c]? = some p) (hh : p.2.head? = some u)
    (hns : u.isStr = false) :
    distCellD d0 nFeat g (c / g ^ 2) (c % g ^ 2) =
      Cell.dist c ((c % g ^ 2) / g) ((c % g ^ 2) % g) := by
  have hidx : c / g ^ 2 * g ^ 2 + c % g ^ 2 = c := by
    rw [Nat.mul_comm]
    exact Nat.div_add_mod c (g ^ 2)
  unfold distCellD
  simp only [hidx]
  rw [if_pos hb, hp]
  cases u with
  | str s => simp [Val.isStr] at hns
  | num q => simp only [hh]
  | na => simp only [hh]

theorem seqCellD_at (d0 : Frame) (nFeat g c : Nat) {p : String × List Val} {u : Val}
    (hb : c < nFeat) (hp : d0.cols[c]? = some p) (hh : p.2.head? = some u)
    (hns : u.isStr = false) :
    seqCellD d0 nFeat g (c / g ^ 2) (c % g ^ 2) =
      Cell.line c ((c % g ^ 2) / g) ((c % g ^ 2) % g) := by
  have hidx : c / g ^ 2 * g ^ 2 + c % g ^ 2 = c := by
    rw [Nat.mul_comm]
    exact Nat.div_add_mod c (g ^ 2)
  unfold seqCellD
  simp only [hidx]
  rw [if_pos hb, hp]
  cases u with
  | str s => simp [Val.isStr] at hns
  | num q => simp only [hh]
  | na => simp only [hh]

theorem div_lt_nPlots (n ps c : Nat) (hps : 0 < ps) (hc : c < n) :
    c / ps < nPlots n ps := by
  by_contra hge
  have h1 : nPlots n ps * ps ≤ c / ps * ps := Nat.mul_le_mul_right _ (le_of_not_lt hge)
  have h2 : c / ps * ps ≤ c := Nat.div_mul_le_self c ps
  have h3 := nPlots_mul_ge n ps hps
  omega

theorem fillna0_getq (d : Frame) {c : Nat} {p : String × List Val}
    (hp : d.cols[c]? = some p) :
    (fillna0 d).cols[c]? = some (p.1, p.2.map fillVal) := by
  unfold fillna0
  simp only [List.getElem?_map, hp]
  rfl

/-- Demonstration dataset for C4: one column whose first value is missing. -/
def dNaDemo : Frame := ⟨[("a", [Val.na, Val.num 3])], [Val.num 0, Val.num 1], none⟩

/-- The frame `visualize_sequential_relationships` leaves behind for `dNaDemo`
with mean smoothing and window 1: the missing value was replaced by 0 before
the rolling mean ran, so the smoothed column is [0, 3]. -/
def dNaDemoOut : Frame := ⟨[("a", [Val.num 0, Val.num 3])], [Val.num 0, Val.num 1], none⟩

theorem dNaDemo_run :
    visualize_sequential_relationships dNaDemo "index" (some "mean") 1 1 =
      .ok (dNaDemoOut, [[Cell.line 0 0 0]]) := by
  have hvsr := vsr_index_eq dNaDemo (some "mean") 1 1 one_pos (by decide)
  rw [hvsr]
  have hm0 : meanQ [0] = 0 := by norm_num [meanQ]
  have hm3 : meanQ [3] = 3 := by norm_num [meanQ]
  simp only [dNaDemo, dNaDemoOut, fillna0, fillVal, procCol, procColVals, rolling_mean,
    rollingStat, toNumD, nPlots, seqCellD]
  norm_num [List.range_succ, hm0, hm3]
  constructor
  · norm_num [procCol, procColVals, fillVal, rolling_mean, rollingStat, toNumD,
      List.range_succ, hm0, hm3]
  · rfl

/-- C4: in both variants every missing value is replaced with zero before any
classification, smoothing or plotting, uniformly in every column regardless of
type.  Conjuncts: (1) no missing value survives the fill in any column;
(2) the fill acts pointwise per column, (3) sending NaN to 0 and keeping every
other value (string or numeric) unchanged; (4)-(5) the fill precedes
classification: a column whose first value is missing is dispatched as
quantitative (distplot / line chart) in both variants, because the dispatcher
sees the replaced 0; (6) the fill precedes smoothing: on a column starting
with a missing value, the rolling mean smooths the zero-filled values. -/
theorem c4_zero_fill (d : Frame) :
    (∀ p ∈ (fillna0 d).cols, ∀ u ∈ p.2, u ≠ Val.na) ∧
    (∀ (c : Nat) (p : String × List Val), d.cols[c]? = some p →
      (fillna0 d).cols[c]? = some (p.1, p.2.map fillVal)) ∧
    (fillVal Val.na = Val.num 0 ∧ ∀ u, u ≠ Val.na → fillVal u = u) ∧
    (∀ v fl gridSize, vizFlags v = some fl → 0 < gridSize →
      (∀ p ∈ d.cols, p.2 ≠ []) →
      ∀ (c : Nat) (p : String × List Val), d.cols[c]? = some p → p.2.head? = some Val.na →
      ∃ bs, visualize_feature_distributions d v gridSize = .ok (fl.1, fl.2, bs) ∧
        (bs.getD (c / gridSize ^ 2) []).getD (c % gridSize ^ 2) Cell.blank =
          Cell.dist c ((c % gridSize ^ 2) / gridSize) ((c % gridSize ^ 2) % gridSize)) ∧
    (∀ gridSize, 0 < gridSize → (∀ p ∈ d.cols, p.2 ≠ []) →
      ∀ (c : Nat) (p : String × List Val), d.cols[c]? = some p → p.2.head? = some Val.na →
      ∃ dF bs, visualize_sequential_relationships d "index" none 1 gridSize = .ok (dF, bs) ∧
        (bs.getD (c / gridSize ^ 2) []).getD (c % gridSize ^ 2) Cell.blank =
          Cell.line c ((c % gridSize ^ 2) / gridSize) ((c % gridSize ^ 2) % gridSize)) ∧
    (visualize_sequential_relationships dNaDemo "index" (some "mean") 1 1 =
      .ok (dNaDemoOut, [[Cell.line 0 0 0]])) := by
  refine ⟨?_, fun c p hp => fillna0_getq d hp, ⟨rfl, ?_⟩, ?_, ?_, dNaDemo_run⟩
  · intro p hp u hu
    unfold fillna0 at hp
    simp only [List.mem_map] at hp
    obtain ⟨q, _, rfl⟩ := hp
    simp only [List.mem_map] at hu
    obtain ⟨x, _, rfl⟩ := hu
    cases x <;> simp [fillVal]
  · intro u hu
    cases u with
    | str s => rfl
    | num q => rfl
    | na => exact absurd rfl hu
  · intro v fl gridSize hv hg hc c p hp hna
    have hp' := fillna0_getq d hp
    have hh' : (p.2.map fillVal).head? = some (Val.num 0) := by
      rw [List.head?_map, hna]
      rfl
    have hcN : c < d.cols.length := lt_of_getq hp
    refine ⟨_, vfd_eq d v fl gridSize hv hg hc, ?_⟩
    have hiN := div_lt_nPlots d.cols.length (gridSize ^ 2) c (by positivity) hcN
    have hjN : c % gridSize ^ 2 < gridSize ^ 2 := Nat.mod_lt _ (by positivity)
    rw [getD_map_range _ _ _ _ hiN, getD_map_range _ _ _ _ hjN]
    exact distCellD_at (fillna0 d) d.cols.length gridSize c hcN hp' hh' (by rfl)
  · intro gridSize hg hc c p hp hna
    have hgood : ∀ p ∈ (fillna0 d).cols, goodCol none p = true := fun p hp =>
      goodCol_of_ne_nil (by rfl) (fillna0_cols_ne_nil d hc p hp)
    have hp' := fillna0_getq d hp
    have hh' : (p.2.map fillVal).head? = some (Val.num 0) := by
      rw [List.head?_map, hna]
      rfl
    have hcN : c < d.cols.length := lt_of_getq hp
    refine ⟨_, _, vsr_index_eq d none 1 gridSize hg hgood, ?_⟩
    have hiN := div_lt_nPlots d.cols.length (gridSize ^ 2) c (by positivity) hcN
    have hjN : c % gridSize ^ 2 < gridSize ^ 2 := Nat.mod_lt _ (by positivity)
    rw [getD_map_range _ _ _ _ hiN, getD_map_range _ _ _ _ hjN]
    exact seqCellD_at (fillna0 d) d.cols.length gridSize c hcN hp' hh' (by rfl)

/-- Witness for C4: the inner implications instantiated at `dNaDemo`, whose
only column has a missing first value and is dispatched as quantitative. -/
theorem c4_zero_fill_witness :
    ((vizFlags "hist" = some (true, false) ∧ 0 < 1 ∧ ∀ p ∈ dNaDemo.cols, p.2 ≠ []) ∧
     dNaDemo.cols[0]? = some ("a", [Val.na, Val.num 3]) ∧
     ([Val.na, Val.num 3] : List Val).head? = some Val.na) ∧
    (∃ bs, visualize_feature_distributions dNaDemo "hist" 1 = .ok (true, false, bs) ∧
      (bs.getD (0 / 1 ^ 2) []).getD (0 % 1 ^ 2) Cell.blank =
        Cell.dist 0 ((0 % 1 ^ 2) / 1) ((0 % 1 ^ 2) % 1)) := by
  refine ⟨⟨⟨by rfl, by norm_num, by decide⟩, by rfl, by rfl⟩, ?_⟩
  exact (c4_zero_fill dNaDemo).2.2.2.1 "hist" (true, false) 1 (by rfl) (by norm_num)
    (by decide) 0 ("a", [Val.na, Val.num 3]) (by rfl) (by rfl)

theorem drop_cons_getD (xs : List ℚ) (m : Nat) (h : m < xs.length) :
    xs.drop m = xs.getD m 0 :: xs.drop (m + 1) := by
  rw [List.drop_eq_getElem_cons h]
  congr 1
  rw [List.getD_eq_getElem?_getD, List.getElem?_eq_getElem h]
  rfl

theorem rolling_mean_getD (xs : List ℚ) (k : Nat) (hk : k < xs.length) (dft : Val) :
    (rolling_mean 3 xs).getD k dft =
      if k + 1 < 3 then Val.na
      else Val.num ((xs.getD (k - 2) 0 + xs.getD (k - 1) 0 + xs.getD k 0) / 3) := by
  unfold rolling_mean rollingStat
  rw [getD_map_range _ _ _ _ hk]
  by_cases h3 : k + 1 < 3
  · rw [if_pos h3, if_pos h3]
  · rw [if_neg h3, if_neg h3]
    have hwin : (xs.drop (k + 1 - 3)).take 3 =
        [xs.getD (k - 2) 0, xs.getD (k - 1) 0, xs.getD k 0] := by
      have h1 : k + 1 - 3 = k - 2 := by omega
      rw [h1, drop_cons_getD xs (k - 2) (by omega)]
      have h2 : k - 2 + 1 = k - 1 := by omega
      rw [h2, drop_cons_getD xs (k - 1) (by omega)]
      have h4 : k - 1 + 1 = k := by omega
      rw [h4, drop_cons_getD xs k hk]
      rfl
    rw [hwin]
    unfold meanQ
    norm_num
    ring_nf

theorem rolling_mean_length (w : Nat) (xs : List ℚ) :
    (rolling_mean w xs).length = xs.length := by
  unfold rolling_mean rollingStat
  simp

theorem map_toNumD_num (t : List ℚ) : (t.map Val.num).map toNumD = t := by
  induction t with
  | nil => rfl
  | cons y ys ih =>
    simp only [List.map_cons]
    rw [ih]
    rfl

theorem procColVals_mean_num (w : Nat) (xs : List ℚ) :
    procColVals (some "mean") w (xs.map Val.num) = rolling_mean w xs := by
  unfold procColVals
  cases xs with
  | nil => rfl
  | cons x t =>
    simp only [List.map_cons, List.head?_cons]
    show rolling_mean w ((Val.num x :: t.map Val.num).map toNumD) = rolling_mean w (x :: t)
    congr 1
    simp only [List.map_cons]
    rw [map_toNumD_num]
    rfl

/-- C7: with smooth_method "mean" and window 3, every quantitative (all
numeric) column is replaced, before plotting, by its 3-point trailing moving
average: position k ≥ 2 holds the mean of the original (zero-filled) values at
positions k-2, k-1 and k, and the first window - 1 = 2 positions are undefined
(missing). -/
theorem c7_rolling_mean (d : Frame) (gridSize : Nat) (hg : 0 < gridSize)
    (hgood : ∀ p ∈ (fillna0 d).cols, goodCol (some "mean") p = true)
    (c : Nat) (nm : String) (xs : List ℚ)
    (hcol : (fillna0 d).cols[c]? = some (nm, xs.map Val.num)) :
    ∃ dF bs, visualize_sequential_relationships d "index" (some "mean") 3 gridSize =
        .ok (dF, bs) ∧
      ∃ ys, dF.cols[c]? = some (nm, ys) ∧ ys.length = xs.length ∧
        (∀ k, k < xs.length → k + 1 < 3 → ys.getD k (Val.num 0) = Val.na) ∧
        (∀ k, k < xs.length → 2 ≤ k →
          ys.getD k Val.na =
            Val.num ((xs.getD (k - 2) 0 + xs.getD (k - 1) 0 + xs.getD k 0) / 3)) := by
  refine ⟨_, _, vsr_index_eq d (some "mean") 3 gridSize hg hgood, ?_⟩
  refine ⟨rolling_mean 3 xs, ?_, rolling_mean_length 3 xs, ?_, ?_⟩
  · show ((fillna0 d).cols.map (procCol (some "mean") 3))[c]? = _
    rw [List.getElem?_map, hcol]
    show some (nm, procColVals (some "mean") 3 (xs.map Val.num)) = _
    rw [procColVals_mean_num]
  · intro k hk h3
    rw [rolling_mean_getD xs k hk, if_pos h3]
  · intro k hk h2
    rw [rolling_mean_getD xs k hk, if_neg (by omega)]

/-- Witness dataset for C7: a single monotonically increasing numeric column
of length 4. -/
def dMono : Frame :=
  ⟨[("m", [Val.num 1, Val.num 2, Val.num 3, Val.num 10])],
   [Val.num 0, Val.num 1, Val.num 2, Val.num 3], none⟩

/-- Witness for C7: the hypotheses hold at `dMono` with grid size 1 and the
theorem applies to its single quantitative column. -/
theorem c7_rolling_mean_witness :
    ((0 < 1 ∧ ∀ p ∈ (fillna0 dMono).cols, goodCol (some "mean") p = true) ∧
     (fillna0 dMono).cols[0]? = some ("m", ([1, 2, 3, 10] : List ℚ).map Val.num)) ∧
    (∃ dF bs, visualize_sequential_relationships dMono "index" (some "mean") 3 1 =
        .ok (dF, bs) ∧
      ∃ ys, dF.cols[0]? = some ("m", ys) ∧ ys.length = ([1, 2, 3, 10] : List ℚ).length ∧
        (∀ k, k < ([1, 2, 3, 10] : List ℚ).length → k + 1 < 3 →
          ys.getD k (Val.num 0) = Val.na) ∧
        (∀ k, k < ([1, 2, 3, 10] : List ℚ).length → 2 ≤ k →
          ys.getD k Val.na =
            Val.num ((([1, 2, 3, 10] : List ℚ).getD (k - 2) 0 +
              ([1, 2, 3, 10] : List ℚ).getD (k - 1) 0 +
              ([1, 2, 3, 10] : List ℚ).getD k 0) / 3))) := by
  refine ⟨⟨⟨by norm_num, by decide⟩, by decide⟩, ?_⟩
  exact c7_rolling_mean dMono 1 (by norm_num) (by decide) 0 "m" [1, 2, 3, 10] (by decide)

theorem smoothBranch_index {w : Nat} {d : Frame} {i : Nat} {rf : Nat → List ℚ → List Val}
    {d2 : Frame}
    (h : (do
        let vals ← colVals d i
        let xs ← mapE toNum vals
        pure (setColVals d i (rf w xs)) : Except String Frame) = .ok d2) :
    d2.index = d.index ∧ d2.indexName = d.indexName := by
  cases hcv : colVals d i with
  | error e => rw [hcv] at h; exact Except.noConfusion h
  | ok vals =>
    rw [hcv] at h
    cases hm : mapE toNum vals with
    | error e =>
      simp only [Bind.bind, Except.bind, hm] at h
      exact Except.noConfusion h
    | ok xs =>
      simp only [Bind.bind, Except.bind, hm, pure, Except.pure, Except.ok.injEq] at h
      subst h
      exact ⟨setColVals_index d i _, setColVals_indexName d i _⟩

theorem seqSmooth_index {sm : Option String} {w : Nat} {d : Frame} {i : Nat} {d2 : Frame}
    (h : seqSmooth sm w d i = .ok d2) :
    d2.index = d.index ∧ d2.indexName = d.indexName := by
  unfold seqSmooth at h
  by_cases h1 : (sm == some "mean") = true
  · rw [if_pos h1] at h
    exact smoothBranch_index h
  · rw [if_neg h1] at h
    by_cases h2 : (sm == some "var") = true
    · rw [if_pos h2] at h
      exact smoothBranch_index h
    · rw [if_neg h2] at h
      by_cases h3 : (sm == some "skew") = true
      · rw [if_pos h3] at h
        exact smoothBranch_index h
      · rw [if_neg h3] at h
        by_cases h4 : (sm == some "kurt") = true
        · rw [if_pos h4] at h
          exact smoothBranch_index h
        · rw [if_neg h4] at h
          simp only [pure, Except.pure, Except.ok.injEq] at h
          subst h
          exact ⟨rfl, rfl⟩

theorem seqStep_index {sm : Option String} {w nFeat g : Nat} {d : Frame} {i j : Nat}
    {d2 : Frame} {c : Cell} (h : seqStep sm w nFeat g d i j = .ok (d2, c)) :
    d2.index = d.index ∧ d2.indexName = d.indexName := by
  unfold seqStep at h
  by_cases hb : i * g ^ 2 + j < nFeat
  · rw [if_pos hb] at h
    cases hfv : firstVal d (i * g ^ 2 + j) with
    | error e =>
      simp only [Bind.bind, Except.bind, hfv] at h
      exact Except.noConfusion h
    | ok v =>
      rw [hfv] at h
      simp only [Bind.bind, Except.bind] at h
      by_cases hstr : v.isStr = true
      · rw [if_pos hstr] at h
        simp only [pure, Except.pure, Except.ok.injEq, Prod.mk.injEq] at h
        obtain ⟨h5, -⟩ := h
        subst h5
        exact ⟨rfl, rfl⟩
      · rw [if_neg hstr] at h
        cases hsm : seqSmooth sm w d (i * g ^ 2 + j) with
        | error e =>
          simp only [Bind.bind, Except.bind, hsm] at h
          exact Except.noConfusion h
        | ok d3 =>
          simp only [Bind.bind, Except.bind, hsm, pure, Except.pure, Except.ok.injEq,
            Prod.mk.injEq] at h
          obtain ⟨h5, -⟩ := h
          subst h5
          exact seqSmooth_index hsm
  · rw [if_neg hb] at h
    simp only [pure, Except.pure, Except.ok.injEq, Prod.mk.injEq] at h
    obtain ⟨h5, -⟩ := h
    subst h5
    exact ⟨rfl, rfl⟩

theorem seqCells_index {sm : Option String} {w nFeat g i : Nat} :
    ∀ {js : List Nat} {d d2 : Frame} {cs : List Cell},
    seqCells sm w nFeat g i d js = .ok (d2, cs) →
    d2.index = d.index ∧ d2.indexName = d.indexName := by
  intro js
  induction js with
  | nil =>
    intro d d2 cs h
    simp only [seqCells, Except.ok.injEq, Prod.mk.injEq] at h
    obtain ⟨h5, -⟩ := h
    subst h5
    exact ⟨rfl, rfl⟩
  | cons j js ih =>
    intro d d2 cs h
    unfold seqCells at h
    cases hstep : seqStep sm w nFeat g d i j with
    | error e =>
      simp only [Bind.bind, Except.bind, hstep] at h
      exact Except.noConfusion h
    | ok pc =>
      obtain ⟨d1, c⟩ := pc
      rw [hstep] at h
      simp only [Bind.bind, Except.bind] at h
      cases hrest : seqCells sm w nFeat g i d1 js with
      | error e =>
        simp only [hrest] at h
        exact Except.noConfusion h
      | ok pr =>
        obtain ⟨d3, cs2⟩ := pr
        simp only [hrest, pure, Except.pure, Except.ok.injEq, Prod.mk.injEq] at h
        obtain ⟨h5, -⟩ := h
        subst h5
        have h6 := ih hrest
        have h7 := seqStep_index hstep
        exact ⟨h6.1.trans h7.1, h6.2.trans h7.2⟩

theorem seqBatches_index {sm : Option String} {w nFeat g : Nat} :
    ∀ {is : List Nat} {d d2 : Frame} {bs : List (List Cell)},
    seqBatches sm w nFeat g d is = .ok (d2, bs) →
    d2.index = d.index ∧ d2.indexName = d.indexName := by
  intro is
  induction is with
  | nil =>
    intro d d2 bs h
    simp only [seqBatches, Except.ok.injEq, Prod.mk.injEq] at h
    obtain ⟨h5, -⟩ := h
    subst h5
    exact ⟨rfl, rfl⟩
  | cons i is ih =>
    intro d d2 bs h
    unfold seqBatches at h
    cases hstep : seqCells sm w nFeat g i d (List.range (g ^ 2)) with
    | error e =>
      simp only [Bind.bind, Except.bind, hstep] at h
      exact Except.noConfusion h
    | ok pc =>
      obtain ⟨d1, cs⟩ := pc
      rw [hstep] at h
      simp only [Bind.bind, Except.bind] at h
      cases hrest : seqBatches sm w nFeat g d1 is with
      | error e =>
        simp only [hrest] at h
        exact Except.noConfusion h
      | ok pr =>
        obtain ⟨d3, bs2⟩ := pr
        simp only [hrest, pure, Except.pure, Except.ok.injEq, Prod.mk.injEq] at h
        obtain ⟨h5, -⟩ := h
        subst h5
        have h6 := ih hrest
        have h7 := seqCells_index hstep
        exact ⟨h6.1.trans h7.1, h6.2.trans h7.2⟩

/-- C6: with the default time = "index" the sequential variant keeps the
existing index values of the dataset, and with any other time column (present in
the data, and with no name collision with the reset index column) the dataset
is re-keyed by that column — its zero-filled values become the index — before
batching and plotting.  (The source compares time with the default by object identity, `is not`;
CPython interns identical short literals, so this is modeled as string
inequality.) -/
theorem c6_time_rekey (d : Frame) (t : String) :
    (∀ sm w gridSize dF bs,
       visualize_sequential_relationships d "index" sm w gridSize = .ok (dF, bs) →
       dF.index = d.index) ∧
    (t ≠ "index" →
     d.cols.all (fun q => q.1 != d.indexName.getD "index") = true →
     ∀ p : String × List Val, d.cols.find? (fun q => q.1 == t) = some p →
     ∀ sm w gridSize dF bs,
       visualize_sequential_relationships d t sm w gridSize = .ok (dF, bs) →
       dF.index = p.2.map fillVal) := by
  constructor
  · intro sm w gridSize dF bs h
    unfold visualize_sequential_relationships at h
    simp only [ne_eq, not_true_eq_false, if_false, Bind.bind, Except.bind, Pure.pure,
      Except.pure] at h
    by_cases hps : gridSize ^ 2 = 0
    · rw [if_pos hps] at h
      exact Except.noConfusion h
    · rw [if_neg hps] at h
      exact (seqBatches_index h).1
  · intro ht hfresh p hfind sm w gridSize dF bs h
    have hp1 : p.1 = t := by simpa using List.find?_some hfind
    have hmem := List.mem_of_find?_eq_some hfind
    have htnm : d.indexName.getD "index" ≠ t := by
      intro he
      have hall := List.all_eq_true.mp hfresh p hmem
      rw [hp1, ← he] at hall
      simp at hall
    have hany : ((fillna0 d).cols.any
        (fun q => q.1 == (fillna0 d).indexName.getD "index")) = false := by
      unfold fillna0
      rw [List.any_map]
      rw [List.any_eq_false]
      intro q hq
      have hall := List.all_eq_true.mp hfresh q hq
      simpa using hall
    have hreset : reset_index (fillna0 d) =
        .ok ⟨(d.indexName.getD "index", d.index) :: (fillna0 d).cols,
          (List.range d.index.length).map (fun k => Val.num k), none⟩ := by
      unfold reset_index
      rw [if_neg (by rw [hany]; exact Bool.false_ne_true)]
      rfl
    have hfind2 : (((d.indexName.getD "index", d.index) :: (fillna0 d).cols).find?
        (fun q => q.1 == t)) = some (p.1, p.2.map fillVal) := by
      rw [List.find?_cons]
      have hne : (((d.indexName.getD "index", d.index) : String × List Val).1 == t) = false := by
        simpa using htnm
      simp only [hne]
      unfold fillna0
      rw [List.find?_map]
      rw [show List.find? ((fun q => q.1 == t) ∘
        (fun p => (p.1, p.2.map fillVal))) d.cols = some p from hfind]
      rfl
    unfold visualize_sequential_relationships at h
    rw [if_pos ht] at h
    cases hres : reset_index (fillna0 d) with
    | error e =>
      rw [hres] at h
      simp only [Bind.bind, Except.bind] at h
      exact Except.noConfusion h
    | ok f1 =>
      rw [hres] at h
      simp only [Bind.bind, Except.bind] at h
      have hf1 : f1 = ⟨(d.indexName.getD "index", d.index) :: (fillna0 d).cols,
          (List.range d.index.length).map (fun k => Val.num k), none⟩ := by
        rw [hres] at hreset
        exact (Except.ok.injEq _ _).mp hreset
      subst hf1
      cases hsi : set_index ⟨(d.indexName.getD "index", d.index) :: (fillna0 d).cols,
          (List.range d.index.length).map (fun k => Val.num k), none⟩ t with
      | error e =>
        simp only [hsi] at h
        exact Except.noConfusion h
      | ok f2 =>
        simp only [hsi] at h
        by_cases hps : gridSize ^ 2 = 0
        · rw [if_pos hps] at h
          exact Except.noConfusion h
        · rw [if_neg hps] at h
          have hidx := (seqBatches_index h).1
          unfold set_index at hsi
          simp only [] at hsi
          rw [hfind2] at hsi
          simp only [Except.ok.injEq] at hsi
          rw [hidx, ← hsi]
          rfl

/-- Witness dataset for C6 and its concrete run: re-keying by column "t" makes
the zero-filled values of "t" the index, while the old index becomes a column
named "index". -/
def dRekey : Frame := ⟨[("t", [Val.num 5]), ("a", [Val.num 1])], [Val.num 9], none⟩

/-- The local frame left behind by the re-keyed run on `dRekey`. -/
def dRekeyOut : Frame := ⟨[("index", [Val.num 9]), ("a", [Val.num 1])], [Val.num 5], none⟩

/-- Witness for C6: both conclusions instantiated at `dRekey`, with the
concrete runs discharged by evaluation. -/
theorem c6_time_rekey_witness :
    ((("t" : String) ≠ "index" ∧
      dRekey.cols.all (fun q => q.1 != dRekey.indexName.getD "index") = true) ∧
     (dRekey.cols.find? (fun q => q.1 == "t") = some ("t", [Val.num 5]) ∧
      visualize_sequential_relationships dRekey "t" none 1 1 =
        .ok (dRekeyOut, [[Cell.line 0 0 0], [Cell.line 1 0 0]]))) ∧
    (dRekeyOut.index = ([Val.num 5] : List Val).map fillVal ∧
     (⟨[("t", [Val.num 5]), ("a", [Val.num 1])], [Val.num 9], none⟩ : Frame).index =
       dRekey.index) := by
  refine ⟨⟨⟨by decide, by decide⟩, by decide, by decide⟩, ?_, ?_⟩
  · exact (c6_time_rekey dRekey "t").2 (by decide) (by decide) ("t", [Val.num 5])
      (by decide) none 1 1 dRekeyOut [[Cell.line 0 0 0], [Cell.line 1 0 0]] (by decide)
  · exact (c6_time_rekey dRekey "t").1 none 1 1
      ⟨[("t", [Val.num 5]), ("a", [Val.num 1])], [Val.num 9], none⟩
      [[Cell.line 0 0 0], [Cell.line 1 0 0]] (by decide)

/-- A store of allocated data-frame objects; a reference is an index into the
store.  Python-level aliasing is modeled explicitly: methods that return a new
frame (`fillna`, `reset_index`, `set_index`) allocate, while
`data.index.name = None` and `data.iloc[:, i] = vals` write in place. -/
abbrev Store := List Frame

/-- Dereference a frame object. -/
def hread (s : Store) (r : Nat) : Except String Frame :=
  match s[r]? with
  | some f => .ok f
  | none => .error "invalid frame reference"

/-- Heap-level inner loop of `visualize_sequential_relationships`: each
iteration reads the current frame object, runs the loop body, and writes the
(possibly smoothed) frame back in place. -/
def seqCellsH (sm : Option String) (w nFeat gridSize i : Nat) :
    List Nat → Store → Nat → Except String (Store × List Cell)
  | [], s, _ => .ok (s, [])
  | j :: js, s, r => do
    let f ← hread s r
    let (f2, c) ← seqStep sm w nFeat gridSize f i j
    let (s3, cs) ← seqCellsH sm w nFeat gridSize i js (s.set r f2) r
    pure (s3, c :: cs)

/-- Heap-level outer loop of `visualize_sequential_relationships`. -/
def seqBatchesH (sm : Option String) (w nFeat gridSize : Nat) :
    List Nat → Store → Nat → Except String (Store × List (List Cell))
  | [], s, _ => .ok (s, [])
  | i :: is, s, r => do
    let (s2, cs) ← seqCellsH sm w nFeat gridSize i (List.range (gridSize ^ 2)) s r
    let (s3, bs) ← seqBatchesH sm w nFeat gridSize is s2 r
    pure (s3, cs :: bs)

/-- Heap-level `visualize_feature_distributions`: the only heap event is the
allocation performed by `data.fillna(0)` (pandas returns a copy); the function
performs no in-place write at all.  Returns the final store and the output. -/
def vfd_heap (s : Store) (dref : Nat) (vizType : String) (gridSize : Nat) :
    Except String (Store × (Bool × Bool × List (List Cell))) := do
  let f ← hread s dref
  let out ← visualize_feature_distributions f vizType gridSize
  pure (s ++ [fillna0 f], out)

/-- Heap-level `visualize_sequential_relationships`: `data.fillna(0)`,
`data.reset_index()` and `data.set_index(time)` each allocate a fresh frame and
rebind the local variable, while `data.index.name = None` (line 211) and the
smoothing assignments write in place.  pandas `fillna` copies the column data
but shares the Index object with the frame it was called on, so on the default
path (`time` left at "index") the in-place name clear reaches the caller
through that shared Index: it is modeled by clearing the index name of both
frames holding the shared Index, the fresh copy and the frame of the caller.
On the re-keying path `reset_index` and `set_index` build fresh Index objects,
so there the name clear stays local to the re-keyed frame. -/
def vsr_heap (s : Store) (dref : Nat) (time : String) (sm : Option String)
    (window gridSize : Nat) : Except String (Store × List (List Cell)) := do
  let f ← hread s dref
  let s1 := s ++ [fillna0 f]
  let r1 := s1.length - 1
  let (s2, r2) ←
    (if time ≠ "index" then do
      let f1 ← hread s1 r1
      let f2 ← reset_index f1
      let s2 := s1 ++ [f2]
      let r2 := s2.length - 1
      let f3 ← hread s2 r2
      let f4 ← set_index f3 time
      let s3 := s2 ++ [f4]
      let r3 := s3.length - 1
      let f5 ← hread s3 r3
      pure (s3.set r3 (setIndexNameNone f5), r3)
    else do
      let f5 ← hread s1 r1
      let fc ← hread s1 dref
      pure ((s1.set r1 (setIndexNameNone f5)).set dref (setIndexNameNone fc), r1))
  let f6 ← hread s2 r2
  let nFeatures := f6.cols.length
  if gridSize ^ 2 = 0 then
    Except.error "ZeroDivisionError: integer division or modulo by zero"
  else
    seqBatchesH sm window nFeatures gridSize
      (List.range (nPlots nFeatures (gridSize ^ 2))) s2 r2

theorem seqCellsH_eq (sm : Option String) (w nFeat gridSize i : Nat) :
    ∀ (js : List Nat) (s : Store) (r : Nat) (f : Frame), s[r]? = some f →
    seqCellsH sm w nFeat gridSize i js s r =
      (seqCells sm w nFeat gridSize i f js).map (fun q => (s.set r q.1, q.2)) := by
  intro js
  induction js with
  | nil =>
    intro s r f hf
    show Except.ok (s, []) = Except.ok (s.set r f, [])
    rw [set_of_getq hf]
  | cons j js ih =>
    intro s r f hf
    unfold seqCellsH
    unfold hread
    rw [hf]
    simp only [Bind.bind, Except.bind]
    conv_rhs => unfold seqCells
    simp only [Bind.bind, Except.bind]
    cases hstep : seqStep sm w nFeat gridSize f i j with
    | error e => rfl
    | ok pc =>
      obtain ⟨f2, c⟩ := pc
      have hr : r < s.length := lt_of_getq hf
      have hset : (s.set r f2)[r]? = some f2 := List.getElem?_set_self (by simpa using hr)
      simp only [ih (s.set r f2) r f2 hset]
      cases hrest : seqCells sm w nFeat gridSize i f2 js with
      | error e => rfl
      | ok pr =>
        obtain ⟨f3, cs⟩ := pr
        simp only [List.set_set]
        rfl

theorem seqBatchesH_eq (sm : Option String) (w nFeat gridSize : Nat) :
    ∀ (is : List Nat) (s : Store) (r : Nat) (f : Frame), s[r]? = some f →
    seqBatchesH sm w nFeat gridSize is s r =
      (seqBatches sm w nFeat gridSize f is).map (fun q => (s.set r q.1, q.2)) := by
  intro is
  induction is with
  | nil =>
    intro s r f hf
    show Except.ok (s, []) = Except.ok (s.set r f, [])
    rw [set_of_getq hf]
  | cons i is ih =>
    intro s r f hf
    unfold seqBatchesH
    rw [seqCellsH_eq sm w nFeat gridSize i (List.range (gridSize ^ 2)) s r f hf]
    simp only [Except.map]
    conv_rhs => unfold seqBatches
    simp only [Bind.bind, Except.bind]
    cases hcells : seqCells sm w nFeat gridSize i f (List.range (gridSize ^ 2)) with
    | error e => rfl
    | ok pc =>
      obtain ⟨f2, cs⟩ := pc
      have hr : r < s.length := lt_of_getq hf
      have hset : (s.set r f2)[r]? = some f2 := List.getElem?_set_self (by simpa using hr)
      simp only [ih (s.set r f2) r f2 hset]
      cases hrest : seqBatches sm w nFeat gridSize f2 is with
      | error e => rfl
      | ok pr =>
        obtain ⟨f3, bs⟩ := pr
        simp only [List.set_set]
        rfl

theorem vsr_heap_eq (s : Store) (dref : Nat) (t : String) (sm : Option String)
    (w gridSize : Nat) (f : Frame) (hf : s[dref]? = some f) :
    ∃ (S : Store) (r : Nat), s.length ≤ r ∧
      (t ≠ "index" → S[dref]? = s[dref]?) ∧
      (t = "index" → S[dref]? = some (setIndexNameNone f)) ∧
      vsr_heap s dref t sm w gridSize =
        (visualize_sequential_relationships f t sm w gridSize).map
          (fun q => (S.set r q.1, q.2)) := by
  have hdref : dref < s.length := lt_of_getq hf
  by_cases ht : t = "index"
  · subst ht
    refine ⟨((s ++ [fillna0 f]).set s.length (setIndexNameNone (fillna0 f))).set dref
        (setIndexNameNone f), s.length, le_refl _,
      fun hne => absurd rfl hne,
      fun _ => List.getElem?_set_self (by
        simp only [List.length_set, List.length_append, List.length_cons, List.length_nil]
        omega), ?_⟩
    unfold vsr_heap
    unfold hread
    rw [hf]
    simp only [Bind.bind, Except.bind, ne_eq, not_true_eq_false, if_false,
      Pure.pure, Except.pure, List.length_append, List.length_cons, List.length_nil,
      Nat.add_sub_cancel]
    simp only [List.getElem?_concat_length, List.getElem?_append_left hdref, hf]
    simp only [show (((s ++ [fillna0 f]).set s.length (setIndexNameNone (fillna0 f))).set
        dref (setIndexNameNone f))[s.length]? = some (setIndexNameNone (fillna0 f)) from by
      rw [List.getElem?_set_ne (fun he => by omega)]
      exact List.getElem?_set_self (by simp)]
    unfold visualize_sequential_relationships
    simp only [ne_eq, not_true_eq_false, if_false, Bind.bind, Except.bind,
      Pure.pure, Except.pure]
    by_cases hps : gridSize ^ 2 = 0
    · rw [if_pos hps, if_pos hps]
      rfl
    · rw [if_neg hps, if_neg hps]
      rw [seqBatchesH_eq sm w (setIndexNameNone (fillna0 f)).cols.length gridSize
        (List.range (nPlots (setIndexNameNone (fillna0 f)).cols.length (gridSize ^ 2)))
        (((s ++ [fillna0 f]).set s.length (setIndexNameNone (fillna0 f))).set dref
          (setIndexNameNone f)) s.length (setIndexNameNone (fillna0 f)) (by
        rw [List.getElem?_set_ne (fun he => by omega)]
        exact List.getElem?_set_self (by simp))]
  · have htne : t ≠ "index" := ht
    unfold vsr_heap
    unfold hread
    rw [hf]
    simp only [Bind.bind, Except.bind, ne_eq, if_pos htne, List.length_append,
      List.length_cons, List.length_nil, Nat.add_sub_cancel]
    simp only [List.getElem?_concat_length]
    unfold visualize_sequential_relationships
    simp only [ne_eq, if_pos htne, Bind.bind, Except.bind]
    cases hres : reset_index (fillna0 f) with
    | error e =>
      exact ⟨s ++ [fillna0 f], s.length, le_refl _,
        fun _ => (List.getElem?_append_left hdref).trans hf,
        fun hidx => absurd hidx htne, rfl⟩
    | ok f2 =>
      simp only [List.length_append, List.length_cons, List.length_nil, Nat.add_sub_cancel]
      simp only [show (s ++ [fillna0 f] ++ [f2])[s.length + 1]? = some f2 by
        rw [show s.length + 1 = (s ++ [fillna0 f]).length by simp]
        exact List.getElem?_concat_length _ _]
      cases hsi : set_index f2 t with
      | error e =>
        exact ⟨s ++ [fillna0 f], s.length, le_refl _,
          fun _ => (List.getElem?_append_left hdref).trans hf,
          fun hidx => absurd hidx htne, rfl⟩
      | ok f3 =>
        refine ⟨s ++ [fillna0 f] ++ [f2] ++ [f3], s.length + 2, by omega, ?_,
          fun hidx => absurd hidx htne, ?_⟩
        · intro _
          rw [List.getElem?_append_left (by simp; omega),
            List.getElem?_append_left (by simp; omega),
            List.getElem?_append_left hdref]
          exact hf
        · simp only [Pure.pure, Except.pure, List.length_append, List.length_cons,
            List.length_nil, Nat.zero_add, Nat.add_sub_cancel,
            show s.length + 1 + 1 = s.length + 2 from rfl]
          simp only [show (s ++ [fillna0 f] ++ [f2] ++ [f3])[s.length + 2]? = some f3 by
            rw [show s.length + 2 = (s ++ [fillna0 f] ++ [f2]).length by simp]
            exact List.getElem?_concat_length _ _]
          simp only [show ((s ++ [fillna0 f] ++ [f2] ++ [f3]).set (s.length + 2)
              (setIndexNameNone f3))[s.length + 2]? = some (setIndexNameNone f3)
            from List.getElem?_set_self (by simp)]
          by_cases hps : gridSize ^ 2 = 0
          · rw [if_pos hps, if_pos hps]
            rfl
          · rw [if_neg hps, if_neg hps]
            rw [seqBatchesH_eq sm w (setIndexNameNone f3).cols.length gridSize
              (List.range (nPlots (setIndexNameNone f3).cols.length (gridSize ^ 2)))
              ((s ++ [fillna0 f] ++ [f2] ++ [f3]).set (s.length + 2) (setIndexNameNone f3))
              (s.length + 2) (setIndexNameNone f3) (List.getElem?_set_self (by simp))]
            simp only [List.set_set]

theorem vfd_heap_eq (s : Store) (dref : Nat) (v : String) (gridSize : Nat) (f : Frame)
    (hf : s[dref]? = some f) :
    vfd_heap s dref v gridSize =
      (visualize_feature_distributions f v gridSize).map
        (fun out => (s ++ [fillna0 f], out)) := by
  unfold vfd_heap hread
  rw [hf]
  simp only [Bind.bind, Except.bind]
  cases h : visualize_feature_distributions f v gridSize with
  | error e => rfl
  | ok out => rfl

/-- On the default-time path the pure dispatcher result does not depend on the
index name of its input: the frame it works on is `setIndexNameNone (fillna0 d)`,
which clears the name either way, and the name is never read before being
cleared (only `reset_index`, on the re-keying path, reads it). -/
theorem vsr_index_name_irrel (f : Frame) (sm : Option String) (w gridSize : Nat) :
    visualize_sequential_relationships (setIndexNameNone f) "index" sm w gridSize =
      visualize_sequential_relationships f "index" sm w gridSize := rfl

/-- A caller frame whose index carries a name; its column has no missing
values, so zero-filling leaves the values unchanged. -/
def fNamed : Frame := ⟨[("a", [Val.num 1])], [Val.num 0], some "ts"⟩

/-- C9, counterexample: the caller frame is NOT always unchanged.  On the
default path `data = data.fillna(0)` copies the column data but shares the
Index object with the frame of the caller, so line 211 `data.index.name = None`
clears the index name of the caller frame too: after a successful sequential
run on a store holding one frame whose index is named "ts", the reference held
by the caller dereferences to a frame whose index name is gone. -/
theorem c9_counterexample :
    vsr_heap [fNamed] 0 "index" none 1 1 =
      .ok ([setIndexNameNone fNamed, setIndexNameNone fNamed], [[Cell.line 0 0 0]]) ∧
    ([setIndexNameNone fNamed, setIndexNameNone fNamed] : Store)[0]? ≠
      ([fNamed] : Store)[0]? := ⟨by decide, by decide⟩

/-- C9, amended: neither function ever mutates the column data or the index
values of the caller frame — the zero-fill, the re-indexing and the in-place
smoothing writes all land on the local copy — and `visualize_feature_distributions`
leaves the caller frame entirely unchanged, as does
`visualize_sequential_relationships` when a re-keying `time` column is given
(there `reset_index`/`set_index` build fresh Index objects).  But on the
default path (`time` left at "index") the copy made by `fillna(0)` shares the
Index object of the caller, so line 211 `data.index.name = None` clears the
index name of the caller frame: after a successful call the reference of the
caller dereferences to the original frame with, in that one case, its index
name cleared. -/
theorem c9_caller_mutation_scope (s : Store) (dref : Nat) (f : Frame)
    (hf : s[dref]? = some f) :
    (∀ v gridSize s2 out,
       vfd_heap s dref v gridSize = .ok (s2, out) → s2[dref]? = s[dref]?) ∧
    (∀ t sm w gridSize s2 bs,
       vsr_heap s dref t sm w gridSize = .ok (s2, bs) →
       ∃ (f2 : Frame), s2[dref]? = some f2 ∧ f2.cols = f.cols ∧ f2.index = f.index ∧
         (t ≠ "index" → f2 = f) ∧ (t = "index" → f2 = setIndexNameNone f)) := by
  have hdref : dref < s.length := lt_of_getq hf
  constructor
  · intro v gridSize s2 out h
    rw [vfd_heap_eq s dref v gridSize f hf] at h
    cases hp : visualize_feature_distributions f v gridSize with
    | error e =>
      rw [hp] at h
      exact Except.noConfusion h
    | ok o =>
      rw [hp] at h
      simp only [Except.map, Except.ok.injEq, Prod.mk.injEq] at h
      obtain ⟨h1, -⟩ := h
      rw [← h1, List.getElem?_append_left hdref]
  · intro t sm w gridSize s2 bs h
    obtain ⟨S, r, hr, hSne, hSidx, heq⟩ := vsr_heap_eq s dref t sm w gridSize f hf
    rw [heq] at h
    cases hp : visualize_sequential_relationships f t sm w gridSize with
    | error e =>
      rw [hp] at h
      exact Except.noConfusion h
    | ok q =>
      rw [hp] at h
      simp only [Except.map, Except.ok.injEq, Prod.mk.injEq] at h
      obtain ⟨h1, -⟩ := h
      have hs2 : s2[dref]? = S[dref]? := by
        rw [← h1, List.getElem?_set_ne (fun he => by omega)]
      by_cases ht : t = "index"
      · refine ⟨setIndexNameNone f, ?_, rfl, rfl, fun hne => absurd ht hne, fun _ => rfl⟩
        rw [hs2, hSidx ht]
      · refine ⟨f, ?_, rfl, rfl, fun _ => rfl, fun hidx => absurd hidx ht⟩
        rw [hs2, hSne ht, hf]

/-- Whether a frame has no missing values in any column. -/
def noMissing (f : Frame) : Bool := f.cols.all (fun p => p.2.all (fun u => u != Val.na))

/-- C8: the batch/cell assignment and classification are deterministic and
idempotent for datasets with no missing values: both functions are pure
functions of the dereferenced frame and their arguments (determinism is
definitional), and running the same call a second time on the store the first
call left behind succeeds and produces exactly the same grid cells (the same
batch/cell assignment and the same categorical/quantitative routing).  On the
re-keying path and for `visualize_feature_distributions` the caller frame is
untouched, so the rerun is the same computation; on the default path the first
run has cleared the index name of the caller frame through the shared Index
object, and the rerun still yields the same cells because the default-path
result does not depend on the index name.  The statement holds for every
dataset; the no-missing-values hypothesis mirrors the scope of the claim. -/
theorem c8_idempotent_rerun (s : Store) (dref : Nat) (f : Frame)
    (hf : s[dref]? = some f) (_hnm : noMissing f = true) :
    (∀ t sm w gridSize s1 bs,
       vsr_heap s dref t sm w gridSize = .ok (s1, bs) →
       ∃ s2, vsr_heap s1 dref t sm w gridSize = .ok (s2, bs)) ∧
    (∀ v gridSize s1 out,
       vfd_heap s dref v gridSize = .ok (s1, out) →
       ∃ s2, vfd_heap s1 dref v gridSize = .ok (s2, out)) := by
  have hdref : dref < s.length := lt_of_getq hf
  constructor
  · intro t sm w gridSize s1 bs h
    obtain ⟨S, r, hr, hSne, hSidx, heq⟩ := vsr_heap_eq s dref t sm w gridSize f hf
    rw [heq] at h
    cases hp : visualize_sequential_relationships f t sm w gridSize with
    | error e =>
      rw [hp] at h
      exact Except.noConfusion h
    | ok q =>
      rw [hp] at h
      simp only [Except.map, Except.ok.injEq, Prod.mk.injEq] at h
      obtain ⟨h1, h2⟩ := h
      by_cases ht : t = "index"
      · subst ht
        have hf1 : s1[dref]? = some (setIndexNameNone f) := by
          rw [← h1, List.getElem?_set_ne (fun he => by omega), hSidx rfl]
        obtain ⟨S2, r2, hr2, hS2ne, hS2idx, heq2⟩ :=
          vsr_heap_eq s1 dref "index" sm w gridSize (setIndexNameNone f) hf1
        refine ⟨S2.set r2 q.1, ?_⟩
        rw [heq2, vsr_index_name_irrel, hp, ← h2]
        rfl
      · have hf1 : s1[dref]? = some f := by
          rw [← h1, List.getElem?_set_ne (fun he => by omega), hSne ht, hf]
        obtain ⟨S2, r2, hr2, hS2ne, hS2idx, heq2⟩ :=
          vsr_heap_eq s1 dref t sm w gridSize f hf1
        refine ⟨S2.set r2 q.1, ?_⟩
        rw [heq2, hp, ← h2]
        rfl
  · intro v gridSize s1 out h
    rw [vfd_heap_eq s dref v gridSize f hf] at h
    cases hp : visualize_feature_distributions f v gridSize with
    | error e =>
      rw [hp] at h
      exact Except.noConfusion h
    | ok o =>
      rw [hp] at h
      simp only [Except.map, Except.ok.injEq, Prod.mk.injEq] at h
      obtain ⟨h1, h2⟩ := h
      have hf1 : s1[dref]? = some f := by
        rw [← h1, List.getElem?_append_left hdref, hf]
      refine ⟨s1 ++ [fillna0 f], ?_⟩
      rw [vfd_heap_eq s1 dref v gridSize f hf1, hp, ← h2]
      rfl

/-- Witness for C9 (amended theorem): on a concrete named-index caller frame
the successful default-path run leaves the caller reference on a frame with the
same columns and index values, equal to the original frame with its index name
cleared. -/
theorem c9_caller_mutation_scope_witness :
    ([fNamed] : Store)[0]? = some fNamed ∧
    (∃ (f2 : Frame),
       ([setIndexNameNone fNamed, setIndexNameNone fNamed] : Store)[0]? = some f2 ∧
       f2.cols = fNamed.cols ∧ f2.index = fNamed.index ∧
       ("index" ≠ "index" → f2 = fNamed) ∧
       ("index" = "index" → f2 = setIndexNameNone fNamed)) := by
  refine ⟨by decide, ?_⟩
  exact (c9_caller_mutation_scope [fNamed] 0 fNamed (by decide)).2 "index" none 1 1
    [setIndexNameNone fNamed, setIndexNameNone fNamed] [[Cell.line 0 0 0]] (by decide)

/-- Witness for C8: re-running the same concrete sequential call on the store
left by a first successful run (in which the index name of the caller frame was
cleared through the shared Index object) yields the same grid cells. -/
theorem c8_idempotent_rerun_witness :
    (([fNamed] : Store)[0]? = some fNamed ∧ noMissing fNamed = true ∧
     vsr_heap [fNamed] 0 "index" none 1 1 =
       .ok ([setIndexNameNone fNamed, setIndexNameNone fNamed], [[Cell.line 0 0 0]])) ∧
    (∃ s2, vsr_heap [setIndexNameNone fNamed, setIndexNameNone fNamed] 0 "index" none 1 1 =
       .ok (s2, [[Cell.line 0 0 0]])) := by
  refine ⟨⟨by decide, by decide, by decide⟩, ?_⟩
  exact (c8_idempotent_rerun [fNamed] 0 fNamed (by decide) (by decide)).1 "index" none 1 1
    [setIndexNameNone fNamed, setIndexNameNone fNamed] [[Cell.line 0 0 0]] (by decide)

/-- One seaborn chart invocation of `visualize_variable_relationships`,
recorded abstractly (the rendering itself is the out-of-scope backend). -/
inductive PlotCall where
  | violinData (cols : List String)
  | violinXY (x y : String)
  | jointPlot (x y kind : String)
  | pairPlot (vars : List String) (kind diag : String)
  | pairPlotHue (hue : String) (vars : List String) (kind diag : String)
  | factorPlot (x y kind : String)
  | factorPlotHue (x y hue kind : String)
  | lmPlotRow (x y row : String)
  | lmPlotColRow (x y col row : String)
  deriving DecidableEq

/-- Python list subscription `l[i]`; IndexError out of bounds. -/
def getIdx (l : List String) (i : Nat) : Except String String :=
  match l[i]? with
  | some x => .ok x
  | none => .error "IndexError: list index out of range"

/-- Line 47, `data[quantitative_vars]`: column projection, KeyError when a
requested column is absent. -/
def selectCols (d : Frame) (names : List String) :
    Except String (List (String × List Val)) :=
  mapE (fun nm =>
    match d.cols.find? (fun p => p.1 == nm) with
    | some p => .ok p
    | none => .error "KeyError") names

/-- Lines 52-68: the per-category violin grid (only reached when categorical
variables were provided); every subscription in this block is guarded by the
branch conditions, so it cannot raise. -/
def categoryPlots (qv : List String) (category_vars : Option (List String)) :
    List PlotCall :=
  match category_vars with
  | none => []
  | some cv =>
    if qv.length = 1 then
      if cv.length = 1 then [PlotCall.violinXY (qv.headD "") (cv.headD "")]
      else cv.map (fun c => PlotCall.violinXY (qv.headD "") c)
    else
      (qv.map (fun v =>
        if cv.length = 1 then [PlotCall.violinXY v (cv.headD "")]
        else cv.map (fun c => PlotCall.violinXY v c))).flatten

/-- Lines 70-94: the direct-comparison block; subscriptions such as
`category_vars[1]` can raise IndexError (e.g. for an empty category list). -/
def comparePlots (qv : List String) (category_vars : Option (List String))
    (joint_viz_type pair_viz_type factor_viz_type pair_diag_type : String) :
    Except String (List PlotCall) :=
  match category_vars with
  | none =>
    if qv.length = 2 then do
      let x ← getIdx qv 0
      let y ← getIdx qv 1
      pure [PlotCall.jointPlot x y joint_viz_type]
    else pure [PlotCall.pairPlot qv pair_viz_type pair_diag_type]
  | some cv =>
    if qv.length = 1 then
      if cv.length = 1 then do
        let x ← getIdx cv 0
        let y ← getIdx qv 0
        pure [PlotCall.factorPlot x y factor_viz_type]
      else do
        let x ← getIdx cv 0
        let y ← getIdx qv 0
        let hue ← getIdx cv 1
        pure [PlotCall.factorPlotHue x y hue factor_viz_type]
    else if qv.length = 2 then
      if cv.length = 1 then do
        let x ← getIdx qv 0
        let y ← getIdx qv 1
        let rowv ← getIdx cv 0
        pure [PlotCall.lmPlotRow x y rowv]
      else do
        let x ← getIdx qv 0
        let y ← getIdx qv 1
        let colv ← getIdx cv 0
        let rowv ← getIdx cv 1
        pure [PlotCall.lmPlotColRow x y colv rowv]
    else do
      let hue ← getIdx cv 0
      pure [PlotCall.pairPlotHue hue qv pair_viz_type pair_diag_type]

/-- Lines 9-94, `visualize_variable_relationships`: the guard on
`quantitative_vars` (lines 43-44, raising before any plot is made), then the
violin plot on the selected columns, the optional per-category grid, and the
direct-comparison plots, returned in rendering order. -/
def visualize_variable_relationships (data : Frame)
    (quantitative_vars : Option (List String)) (category_vars : Option (List String))
    (joint_viz_type pair_viz_type factor_viz_type pair_diag_type : String) :
    Except String (List PlotCall) := do
  let qv ←
    match quantitative_vars with
    | none => Except.error "Must provide at least one quantitative variable."
    | some l =>
      if l.length = 0 then Except.error "Must provide at least one quantitative variable."
      else pure l
  let sub ← selectCols data qv
  let cmp ← comparePlots qv category_vars joint_viz_type pair_viz_type
    factor_viz_type pair_diag_type
  pure ([PlotCall.violinData (sub.map Prod.fst)] ++
    categoryPlots qv category_vars ++ cmp)

theorem getIdx_error {l : List String} {i : Nat} {e : String}
    (h : getIdx l i = .error e) : e = "IndexError: list index out of range" := by
  unfold getIdx at h
  cases hq : l[i]? with
  | some x =>
    rw [hq] at h
    exact Except.noConfusion h
  | none =>
    rw [hq] at h
    exact ((Except.error.injEq _ _).mp h).symm

theorem bind_getIdx_error {α : Type} {l : List String} {i : Nat}
    {k : String → Except String α} {e : String}
    (hk : ∀ x e2, k x = .error e2 → e2 = "IndexError: list index out of range")
    (h : (getIdx l i >>= k) = .error e) :
    e = "IndexError: list index out of range" := by
  cases hg : getIdx l i with
  | error e1 =>
    simp only [Bind.bind, Except.bind, hg] at h
    rw [← (Except.error.injEq _ _).mp h]
    exact getIdx_error hg
  | ok x =>
    simp only [Bind.bind, Except.bind, hg] at h
    exact hk x e h

theorem comparePlots_error {qv : List String} {cv : Option (List String)}
    {jt pt ft pdt e : String}
    (h : comparePlots qv cv jt pt ft pdt = .error e) :
    e = "IndexError: list index out of range" := by
  cases cv with
  | none =>
    simp only [comparePlots] at h
    by_cases h2 : qv.length = 2
    · rw [if_pos h2] at h
      exact bind_getIdx_error (fun x e2 hx =>
        bind_getIdx_error (fun y e3 hy => Except.noConfusion hy) hx) h
    · rw [if_neg h2] at h
      exact Except.noConfusion h
  | some cvl =>
    simp only [comparePlots] at h
    by_cases h1 : qv.length = 1
    · rw [if_pos h1] at h
      by_cases hc1 : cvl.length = 1
      · rw [if_pos hc1] at h
        exact bind_getIdx_error (fun x e2 hx =>
          bind_getIdx_error (fun y e3 hy => Except.noConfusion hy) hx) h
      · rw [if_neg hc1] at h
        exact bind_getIdx_error (fun x e2 hx =>
          bind_getIdx_error (fun y e3 hy =>
            bind_getIdx_error (fun z e4 hz => Except.noConfusion hz) hy) hx) h
    · rw [if_neg h1] at h
      by_cases h2 : qv.length = 2
      · rw [if_pos h2] at h
        by_cases hc1 : cvl.length = 1
        · rw [if_pos hc1] at h
          exact bind_getIdx_error (fun x e2 hx =>
            bind_getIdx_error (fun y e3 hy =>
              bind_getIdx_error (fun z e4 hz => Except.noConfusion hz) hy) hx) h
        · rw [if_neg hc1] at h
          exact bind_getIdx_error (fun x e2 hx =>
            bind_getIdx_error (fun y e3 hy =>
              bind_getIdx_error (fun z e4 hz =>
                bind_getIdx_error (fun u e5 hu => Except.noConfusion hu) hz) hy) hx) h
      · rw [if_neg h2] at h
        exact bind_getIdx_error (fun x e2 hx => Except.noConfusion hx) h

theorem selectCols_error {d : Frame} :
    ∀ {names : List String} {e : String}, selectCols d names = .error e →
    e = "KeyError" := by
  intro names
  induction names with
  | nil =>
    intro e h
    exact Except.noConfusion h
  | cons nm rest ih =>
    intro e h
    unfold selectCols at h
    unfold mapE at h
    cases hfind : d.cols.find? (fun p => p.1 == nm) with
    | none =>
      simp only [hfind, Bind.bind, Except.bind] at h
      exact ((Except.error.injEq _ _).mp h).symm
    | some p =>
      simp only [hfind, Bind.bind, Except.bind] at h
      cases hrest : mapE (fun nm =>
          match d.cols.find? (fun p => p.1 == nm) with
          | some p => Except.ok p
          | none => Except.error "KeyError") rest with
      | error e2 =>
        rw [hrest] at h
        rw [← (Except.error.injEq _ _).mp h]
        exact ih hrest
      | ok l2 =>
        rw [hrest] at h
        exact Except.noConfusion h

/-- C10: `visualize_variable_relationships` raises, before producing any plot
(the guard is the first statement and the error return carries no plots), for
every call in which quantitative_vars is None or the empty list; for every
non-empty quantitative_vars the call never fails with this guard error (any
later failure is a KeyError from column selection or an IndexError from
category subscription, both distinct errors raised by later code). -/
theorem c10_quantitative_vars_guard (data : Frame) (cv : Option (List String))
    (jt pt ft pdt : String) :
    (visualize_variable_relationships data none cv jt pt ft pdt =
      .error "Must provide at least one quantitative variable.") ∧
    (visualize_variable_relationships data (some []) cv jt pt ft pdt =
      .error "Must provide at least one quantitative variable.") ∧
    (∀ l : List String, l ≠ [] →
      visualize_variable_relationships data (some l) cv jt pt ft pdt ≠
        .error "Must provide at least one quantitative variable.") := by
  refine ⟨rfl, rfl, ?_⟩
  intro l hl hcontra
  simp only [visualize_variable_relationships, Bind.bind, Except.bind, Pure.pure,
    Except.pure, if_neg (show ¬ l.length = 0 by simpa using hl)] at hcontra
  cases hsel : selectCols data l with
  | error e =>
    simp only [hsel] at hcontra
    have he := selectCols_error hsel
    subst he
    exact absurd hcontra (by decide)
  | ok sub =>
    simp only [hsel] at hcontra
    cases hcmp : comparePlots l cv jt pt ft pdt with
    | error e =>
      simp only [hcmp] at hcontra
      have he := comparePlots_error hcmp
      subst he
      exact absurd hcontra (by decide)
    | ok cmp =>
      simp only [hcmp] at hcontra
      exact Except.noConfusion hcontra

/-- Witness dataset for C10. -/
def dVars : Frame := ⟨[("a", [Val.num 1]), ("b", [Val.num 2])], [Val.num 0], none⟩

/-- Witness for C10: concrete calls — None and the empty list raise the guard
error, a singleton list does not. -/
theorem c10_quantitative_vars_guard_witness :
    ((["a"] : List String) ≠ [] ∧
     visualize_variable_relationships dVars none none "scatter" "scatter" "strip" "kde" =
       .error "Must provide at least one quantitative variable." ∧
     visualize_variable_relationships dVars (some []) none "scatter" "scatter" "strip" "kde" =
       .error "Must provide at least one quantitative variable.") ∧
    visualize_variable_relationships dVars (some ["a"]) none "scatter" "scatter" "strip" "kde" ≠
      .error "Must provide at least one quantitative variable." := by
  have h := c10_quantitative_vars_guard dVars none "scatter" "scatter" "strip" "kde"
  exact ⟨⟨by decide, h.1, h.2.1⟩, h.2.2 ["a"] (by decide)⟩

end Ionyx
